import Mathlib

/-!
Verification of event-exporter: filter predicate, reconciliation step and
controller lifecycle.

A shallow embedding of the Go sources `selectevent.go`, `getstate.go`,
`types.go` and `controller.go`.

* Go strings are embedded as `String`.  The only string operations the sources
  use are equality, `len(s) > 0` and `strings.Split(s, ",")`; the comma is a
  single byte that never occurs inside a multi-byte UTF-8 sequence, so these
  agree on characters and on bytes.
* A Go slice `[]string` is embedded as `Option (List String)`: `none` is the
  `nil` slice, `some l` a non-nil slice with elements `l`.
* The collaborators the controller holds as interface values (work queue,
  indexer, informer) are records of operations over an arbitrary external
  state `σ`; every call the controller makes is appended to a trace.
-/

namespace EventExporter

/-! ## Strings and slices -/

/-- A Go `[]string`; `none` is the nil slice. -/
abbrev StringSlice := Option (List String)

/-- Go `len(items)` for a slice. -/
def len (items : StringSlice) : Nat :=
  match items with
  | none => 0
  | some l => l.length

/-- The elements a `range` loop over the slice visits, in order. -/
def elems (items : StringSlice) : List String :=
  match items with
  | none => []
  | some l => l

/-- The segments of a character sequence between its commas, left to right
(the result of Go `strings.Split(s, ",")` on the characters of `s`). -/
def splitComma : List Char → List (List Char)
  | [] => [[]]
  | c :: cs =>
    if c = ',' then [] :: splitComma cs
    else
      match splitComma cs with
      | [] => [[c]]
      | seg :: segs => (c :: seg) :: segs

/-- Go `strings.Split(s, ",")`. -/
def stringsSplit (s : String) : List String :=
  (splitComma s.data).map String.mk

/-! ## types.go -/

/-- The `State` struct of `types.go`. -/
structure State where
  involvedObjects : StringSlice
  eventTypes : StringSlice
  reasons : StringSlice

/-! ## getstate.go -/

/-- Go `splitParameter`: `items` stays nil unless `len(s) > 0`. -/
def splitParameter (s : String) : StringSlice :=
  let items : StringSlice := none
  if s.data.length > 0 then some (stringsSplit s) else items

/-- Go `getState`. -/
def getState (eventTypes involvedObjects reasons : String) : State :=
  { eventTypes := splitParameter eventTypes
    involvedObjects := splitParameter involvedObjects
    reasons := splitParameter reasons }

/-! ## selectevent.go -/

/-- The `for _, item := range items` loop of `selectGeneric`, started with the
current value of `selected`; a match sets `selected = true` and breaks. -/
def selectLoop (givenItem : String) : List String → Bool → Bool
  | [], selected => selected
  | item :: rest, selected =>
    if item == givenItem then true else selectLoop givenItem rest selected

/-- Go `selectGeneric`. -/
def selectGeneric (items : StringSlice) (givenItem : String) : Bool :=
  if len items == 0 || items.isNone then true
  else selectLoop givenItem (elems items) false

/-- Go `selectEvent`. -/
def selectEvent (state : State) (eventType involvedObject reason : String) : Bool :=
  selectGeneric state.eventTypes eventType &&
    selectGeneric state.involvedObjects involvedObject &&
    selectGeneric state.reasons reason

/-- Specification side of the configuration format: `v` is one of the segments
of `s` delimited by commas, that is, `v` has no comma and occurs in `s` with the
start of `s` or a comma right before it and the end of `s` or a comma right
after it. -/
def IsCommaSegment (v s : List Char) : Prop :=
  ',' ∉ v ∧ ∃ pre post, s = pre ++ v ++ post ∧
    (pre = [] ∨ pre.getLast? = some ',') ∧ (post = [] ∨ post.head? = some ',')

/-! ## Collaborators of the controller (types.go, imports of controller.go) -/

/-- A Go `error` value, identified by its message. -/
abbrev GoError := String

/-- The part of `v1.ObjectReference` the controller reads. -/
structure ObjectReference where
  Kind : String
  deriving DecidableEq, Repr

/-- A `v1.Event`: the three fields the controller reads (`Type`,
`InvolvedObject.Kind`, `Reason`) and the remaining payload, carried opaquely. -/
structure Event where
  Type_ : String
  InvolvedObject : ObjectReference
  Reason : String
  rest : String
  deriving DecidableEq, Repr

/-- The lines the controller writes with `log.Println`. -/
inductive LogLine where
  | fetchFailed (key : String) (err : GoError)
  | marshalFailed (err : GoError)
  | cantSync (key : String) (err : GoError)
  | dropping (key : String) (err : GoError)
  | starting (eventTypes involvedObjects reasons : StringSlice)
  | stopping
  deriving DecidableEq, Repr

/-- One observable action of the controller: a call on a collaborator, a
write, a goroutine start or a channel receive. -/
inductive Call where
  | queueGet
  | queueDone (key : String)
  | queueForget (key : String)
  | queueAddRateLimited (key : String)
  | queueNumRequeues (key : String)
  | queueLen
  | queueShutDown
  | indexerGetByKey (key : String)
  | fmtPrintf (out : String)
  | logPrintln (line : LogLine)
  | runtimeHandleError (err : GoError)
  | runtimeHandleCrash
  | goInformerRun
  | waitForCacheSync
  | goWaitUntilRunWorker
  | recvStopCh
  deriving DecidableEq, Repr

/-- The methods of `workqueue.RateLimitingInterface` the controller calls, over
an external state `σ`.  Keys are strings: the notification handlers only add
results of `MetaNamespaceKeyFunc`.  `Get` answers `none` in a state where the
call does not return (it blocks until an item arrives or the queue is shut
down). -/
structure RateLimitingInterface (σ : Type) where
  Add : String → σ → σ
  Get : σ → Option ((String × Bool) × σ)
  Done : String → σ → σ
  Forget : String → σ → σ
  AddRateLimited : String → σ → σ
  NumRequeues : String → σ → Int × σ
  Len : σ → Int × σ
  ShutDown : σ → σ

/-- The method of `cache.Indexer` the controller calls: `GetByKey` returns
`(item, exists, err)`; a nil `item` is `none`. -/
structure Indexer (σ : Type) where
  GetByKey : String → σ → (Option Event × Bool × Option GoError) × σ

/-- The method of `cache.Controller` (the informer) the controller passes on. -/
structure Informer (σ : Type) where
  HasSynced : σ → Bool × σ

/-- Package-level functions and the stop channel used by `controller.go`.
`WaitForCacheSync` and the receive `<-stopCh` answer `none` in a state where
they never return. -/
structure Packages (σ : Type) where
  jsonMarshal : Event → Except GoError String
  WaitForCacheSync : (σ → Bool × σ) → σ → Option (Bool × σ)
  recvStopCh : σ → Option σ

/-- The `Controller` struct of `types.go` (the fields `clientset` and `mutex`
are never read by the methods embedded here). -/
structure Controller (σ : Type) where
  indexer : Indexer σ
  queue : RateLimitingInterface σ
  informer : Informer σ
  state : State

/-- The external state together with the trace of actions so far. -/
structure World (σ : Type) where
  ext : σ
  trace : List Call

/-- The outcome of a call that may block: it returned `val` in world `w`, or it
is blocked for ever with the world as it stood. -/
inductive Result (σ : Type) (α : Type) where
  | returned (val : α) (w : World σ)
  | blocked (w : World σ)

/-- Append one action to the trace. -/
def World.record {σ : Type} (w : World σ) (c : Call) : World σ :=
  { w with trace := w.trace ++ [c] }

/-- Apply a state-changing call and record it. -/
def World.act {σ : Type} (w : World σ) (c : Call) (f : σ → σ) : World σ :=
  { ext := f w.ext, trace := w.trace ++ [c] }

/-- Apply a value-returning call and record it. -/
def World.ask {σ α : Type} (w : World σ) (c : Call) (f : σ → α × σ) : α × World σ :=
  ((f w.ext).1, { ext := (f w.ext).2, trace := w.trace ++ [c] })

/-! ## controller.go -/

/-- Go `(*Controller).syncToStdout`: the returned error and the world after. -/
def syncToStdout {σ : Type} (p : Packages σ) (c : Controller σ) (key : String)
    (w : World σ) : Option GoError × World σ :=
  let (res, w) := w.ask (.indexerGetByKey key) (c.indexer.GetByKey key)
  let obj := res.1
  let err := res.2.2
  match err with
  | some e => (some e, w.record (.logPrintln (.fetchFailed key e)))
  | none =>
    match obj with
    | none => (none, w)
    | some ev =>
      let eventType := ev.Type_
      let involvedObject := ev.InvolvedObject.Kind
      let reason := ev.Reason
      if !selectEvent c.state eventType involvedObject reason then (none, w)
      else
        match p.jsonMarshal ev with
        | .error e => (none, w.record (.logPrintln (.marshalFailed e)))
        | .ok bytes =>
          let w := w.record (.fmtPrintf (bytes ++ "\n"))
          let (_, w) := w.ask .queueLen c.queue.Len
          (none, w)

/-- Go `(*Controller).handleErr`. -/
def handleErr {σ : Type} (c : Controller σ) (err : Option GoError) (key : String)
    (w : World σ) : World σ :=
  match err with
  | none => w.act (.queueForget key) (c.queue.Forget key)
  | some e =>
    let (n, w) := w.ask (.queueNumRequeues key) (c.queue.NumRequeues key)
    if n < 5 then
      let w := w.record (.logPrintln (.cantSync key e))
      w.act (.queueAddRateLimited key) (c.queue.AddRateLimited key)
    else
      let w := w.act (.queueForget key) (c.queue.Forget key)
      let w := w.record (.runtimeHandleError e)
      w.record (.logPrintln (.dropping key e))

/-- Go `(*Controller).processNextItem`; the deferred `Done(key)` runs when the
function returns after `Get` delivered a key. -/
def processNextItem {σ : Type} (p : Packages σ) (c : Controller σ) (w : World σ) :
    Result σ Bool :=
  match c.queue.Get w.ext with
  | none => .blocked (w.record .queueGet)
  | some ((key, quit), ext) =>
    let w : World σ := { ext := ext, trace := w.trace ++ [.queueGet] }
    if quit then .returned false w
    else
      let (err, w) := syncToStdout p c key w
      let w := handleErr c err key w
      .returned true (w.act (.queueDone key) (c.queue.Done key))

/-- Go `(*Controller).runWorker`, `for c.processNextItem() {}`, run for at most
`fuel` iterations; `none` when the loop is still iterating after `fuel`
rounds. -/
def runWorker {σ : Type} (p : Packages σ) (c : Controller σ) :
    Nat → World σ → Option (Result σ Unit)
  | 0, _ => none
  | fuel + 1, w =>
    match processNextItem p c w with
    | .blocked w => some (.blocked w)
    | .returned false w => some (.returned () w)
    | .returned true w => runWorker p c fuel w

/-- The loop `for i := 0; i < threadiness; i++ { go wait.Until(c.runWorker, ...) }`
of `Run`, from the current value of `i`. -/
def startWorkers {σ : Type} (threadiness : Int) (i : Int) (w : World σ) : World σ :=
  if i < threadiness then
    startWorkers threadiness (i + 1) (w.record .goWaitUntilRunWorker)
  else w
termination_by (threadiness - i).toNat
decreasing_by omega

/-- The deferred calls of `Run`, last registered first: `c.queue.ShutDown()`,
then `runtime.HandleCrash()`. -/
def runDeferred {σ : Type} (c : Controller σ) (w : World σ) : World σ :=
  (w.act .queueShutDown c.queue.ShutDown).record .runtimeHandleCrash

/-- Go `(*Controller).Run`. -/
def Run {σ : Type} (p : Packages σ) (c : Controller σ) (threadiness : Int)
    (w : World σ) : Result σ Unit :=
  let w := w.record
    (.logPrintln (.starting c.state.eventTypes c.state.involvedObjects c.state.reasons))
  let w := w.record .goInformerRun
  match p.WaitForCacheSync c.informer.HasSynced w.ext with
  | none => .blocked (w.record .waitForCacheSync)
  | some (synced, ext) =>
    let w : World σ := { ext := ext, trace := w.trace ++ [.waitForCacheSync] }
    if !synced then
      let w := w.record (.runtimeHandleError "Timed out waiting for caches to sync")
      .returned () (runDeferred c w)
    else
      let w := startWorkers threadiness 0 w
      match p.recvStopCh w.ext with
      | none => .blocked (w.record .recvStopCh)
      | some ext =>
        let w : World σ := { ext := ext, trace := w.trace ++ [.recvStopCh] }
        let w := w.record (.logPrintln .stopping)
        .returned () (runDeferred c w)

/-! ## Reading a trace -/

/-- The texts written to standard output, in order. -/
def emitted (tr : List Call) : List String :=
  tr.filterMap fun c => match c with
    | .fmtPrintf out => some out
    | _ => none

/-- The errors handed to `runtime.HandleError`, in order. -/
def surfaced (tr : List Call) : List GoError :=
  tr.filterMap fun c => match c with
    | .runtimeHandleError e => some e
    | _ => none

/-- The actions appended to the trace `before` to reach the trace `after`. -/
def newCalls (before after : List Call) : List Call :=
  after.drop before.length

/-- The world in which a call returned or is blocked. -/
def Result.world {σ α : Type} : Result σ α → World σ
  | .returned _ w => w
  | .blocked w => w

/-! ## A concrete instance of the collaborators

The work queue, the indexer and the informer are library code outside the
sources.  The instance below follows the contract of the Retry Queue in
section 4.2 of the specification; it is used to run the controller on concrete
inputs and for the retry scenario. -/

/-- Modelled from the spec: the state of the Retry Queue (section 4.2; the
`workqueue` package is not part of the sources), a key-indexed cache and the
lifecycle signals.  `queue` holds the keys ready for `Get`, in order; `dirty`
the keys added and not yet delivered; `processing` the keys in flight;
`failures` the per-key RetryState. -/
structure Sim where
  queue : List String
  dirty : List String
  processing : List String
  shuttingDown : Bool
  failures : String → Nat
  store : String → Option Event × Bool × Option GoError
  synced : Bool
  stopped : Bool

/-- Modelled from the spec: `add(key)` of section 4.2; no duplicate entries, and
a key in flight is only marked for a follow-up delivery. -/
def Sim.add (key : String) (s : Sim) : Sim :=
  if s.shuttingDown then s
  else if key ∈ s.dirty then s
  else
    let s := { s with dirty := s.dirty ++ [key] }
    if key ∈ s.processing then s
    else { s with queue := s.queue ++ [key] }

/-- Modelled from the spec: `get()` of section 4.2; blocks (`none`) on an empty
queue that is not shut down. -/
def Sim.get (s : Sim) : Option ((String × Bool) × Sim) :=
  match s.queue with
  | [] => if s.shuttingDown then some (("", true), s) else none
  | key :: rest =>
    some ((key, false),
      { s with queue := rest
               processing := s.processing ++ [key]
               dirty := s.dirty.filter (fun k => k != key) })

/-- Modelled from the spec: `done(key)` of section 4.2; a key re-added during
processing is released for a new attempt. -/
def Sim.done (key : String) (s : Sim) : Sim :=
  let s := { s with processing := s.processing.filter (fun k => k != key) }
  if key ∈ s.dirty then { s with queue := s.queue ++ [key] } else s

/-- Modelled from the spec: `forget(key)` of section 4.2; clears the RetryState. -/
def Sim.forget (key : String) (s : Sim) : Sim :=
  { s with failures := fun k => if k = key then 0 else s.failures k }

/-- Modelled from the spec: `addRateLimited(key)` of section 4.2; increments the
RetryState and re-enqueues the key, the backoff delay taken as elapsed. -/
def Sim.addRateLimited (key : String) (s : Sim) : Sim :=
  Sim.add key { s with failures := fun k => if k = key then s.failures k + 1 else s.failures k }

/-- Modelled from the spec: the Retry Queue of section 4.2 as an implementation
of the queue interface. -/
def simQueue : RateLimitingInterface Sim where
  Add := Sim.add
  Get := Sim.get
  Done := Sim.done
  Forget := Sim.forget
  AddRateLimited := Sim.addRateLimited
  NumRequeues := fun key s => ((s.failures key : Int), s)
  Len := fun s => ((s.queue.length : Int), s)
  ShutDown := fun s => { s with shuttingDown := true }

/-- Modelled from the spec: the Watch Cache lookup of section 6. -/
def simIndexer : Indexer Sim where
  GetByKey := fun key s => (s.store key, s)

/-- Modelled from the spec: the synchronization-complete signal of section 6. -/
def simInformer : Informer Sim where
  HasSynced := fun s => (s.synced, s)

/-- A serialization for concrete runs: it fails on an event with an empty
payload and otherwise lists the fields. -/
def simMarshal (ev : Event) : Except GoError String :=
  if ev.rest = "" then .error "unsupported value"
  else .ok ("[" ++ ev.Type_ ++ " " ++ ev.InvolvedObject.Kind ++ " " ++ ev.Reason ++ " " ++
    ev.rest ++ "]")

/-- Modelled from the spec: waiting for the initial synchronization and for the
stop signal (section 4.4). -/
def simPackages : Packages Sim where
  jsonMarshal := simMarshal
  WaitForCacheSync := fun hasSynced s =>
    if (hasSynced s).1 then some (true, (hasSynced s).2)
    else if s.stopped then some (false, (hasSynced s).2)
    else none
  recvStopCh := fun s => if s.stopped then some s else none

/-- A controller over the concrete collaborators. -/
def simController (state : State) : Controller Sim where
  indexer := simIndexer
  queue := simQueue
  informer := simInformer
  state := state

/-- A concrete world in which the queue holds `keys`, nothing is in flight, no
key has failed yet, and the cache answers `store`. -/
def simWorld (keys : List String)
    (store : String → Option Event × Bool × Option GoError) : World Sim where
  ext :=
    { queue := keys, dirty := keys, processing := [], shuttingDown := false,
      failures := fun _ => 0, store := store, synced := true, stopped := true }
  trace := []

/-- As `simWorld`, with the queue already shut down: `Get` reports shutdown
once the keys are drained. -/
def simWorldDraining (keys : List String)
    (store : String → Option Event × Bool × Option GoError) : World Sim where
  ext :=
    { queue := keys, dirty := keys, processing := [], shuttingDown := true,
      failures := fun _ => 0, store := store, synced := true, stopped := true }
  trace := []

/-- The record of the end-to-end scenario: category `Warning`, related kind
`Pod`, reason `FailedMount`. -/
def podEvent : Event :=
  { Type_ := "Warning", InvolvedObject := { Kind := "Pod" }, Reason := "FailedMount",
    rest := "ns/pod-1" }

/-- The record of the second end-to-end scenario: as `podEvent`, of category
`Normal`. -/
def normalEvent : Event :=
  { Type_ := "Normal", InvolvedObject := { Kind := "Pod" }, Reason := "FailedMount",
    rest := "ns/pod-1" }

/-- A cache holding `ev` under the key `ns/pod-1` and nothing else. -/
def podStore (ev : Event) : String → Option Event × Bool × Option GoError :=
  fun key => if key = "ns/pod-1" then (some ev, true, none) else (none, false, none)

/-- A cache whose lookup of every key fails with the error `e`. -/
def failingStore (e : GoError) : String → Option Event × Bool × Option GoError :=
  fun _ => (none, false, some e)

/-- Run `n` processing attempts in a row, stopping early if one blocks or
reports shutdown; the worlds are threaded through. -/
def attempts {σ : Type} (p : Packages σ) (c : Controller σ) :
    Nat → World σ → Option (World σ)
  | 0, w => some w
  | n + 1, w =>
    match processNextItem p c w with
    | .returned true w => attempts p c n w
    | _ => none

/-- The retry scenario's queue state: `key` is the one key ready for delivery,
nothing is in flight, the queue is open, `key` has been re-added `n` times since
its last `Forget`, and the cache lookup of `key` fails with `e`. -/
def RetryReady (key : String) (e : GoError) (n : Nat) (s : Sim) : Prop :=
  s.queue = [key] ∧ s.dirty = [key] ∧ s.processing = [] ∧ s.shuttingDown = false ∧
    s.failures key = n ∧ (s.store key).2.2 = some e

/-- The actions of one attempt that fails and is re-added. -/
def retryCalls (key : String) (e : GoError) : List Call :=
  [.queueGet, .indexerGetByKey key, .logPrintln (.fetchFailed key e), .queueNumRequeues key,
    .logPrintln (.cantSync key e), .queueAddRateLimited key, .queueDone key]

/-- The actions of one attempt that fails and is dropped. -/
def dropCalls (key : String) (e : GoError) : List Call :=
  [.queueGet, .indexerGetByKey key, .logPrintln (.fetchFailed key e), .queueNumRequeues key,
    .queueForget key, .runtimeHandleError e, .logPrintln (.dropping key e), .queueDone key]

/-- The actions of `n` attempts in a row that each fail and are re-added. -/
def retryRounds (key : String) (e : GoError) : Nat → List Call
  | 0 => []
  | n + 1 => retryCalls key e ++ retryRounds key e n

/-! ## Interleavings of queue operations

The operations that worker loops and notification callbacks perform on the
queue, each atomic, run in any order. -/

/-- Modelled from the spec: `addRateLimited(key)` of section 4.2 while the
backoff delay is still pending; only the RetryState is incremented, the
re-enqueue follows later as an `add`. -/
def Sim.backoff (key : String) (s : Sim) : Sim :=
  { s with failures := fun k => if k = key then s.failures k + 1 else s.failures k }

/-- One atomic queue operation of a goroutine: `add` by a notification callback
of `realMain` (or by the timer of a delayed re-add), the others by a worker in
`processNextItem` and `handleErr`. -/
inductive QueueOp where
  | add (key : String)
  | get
  | forget (key : String)
  | addRateLimited (key : String)
  | backoff (key : String)
  | done (key : String)
  deriving DecidableEq, Repr

/-- The state after one operation and the key it delivered, if any.  A `Get`
that blocks or reports shutdown delivers nothing; `Done(key)` is only called by
the worker whose `Get` delivered `key`, so it acts only on a key in flight. -/
def QueueOp.step (op : QueueOp) (s : Sim) : Sim × Option String :=
  match op with
  | .add key => (Sim.add key s, none)
  | .get =>
    match Sim.get s with
    | some ((key, false), s2) => (s2, some key)
    | _ => (s, none)
  | .forget key => (Sim.forget key s, none)
  | .addRateLimited key => (Sim.addRateLimited key s, none)
  | .backoff key => (Sim.backoff key s, none)
  | .done key => if key ∈ s.processing then (Sim.done key s, none) else (s, none)

/-- The state after a sequence of operations, in the order they take effect. -/
def afterOps : List QueueOp → Sim → Sim
  | [], s => s
  | op :: ops, s => afterOps ops (op.step s).1

/-- The keys delivered to workers by a sequence of operations, in order. -/
def deliveries : List QueueOp → Sim → List String
  | [], _ => []
  | op :: ops, s =>
    match (op.step s).2 with
    | some key => key :: deliveries ops (op.step s).1
    | none => deliveries ops (op.step s).1

/-- The invariant of the open queue: no key is queued twice or in flight twice,
a queued key is marked dirty and is not in flight, and a dirty key is queued or
in flight. -/
def QueueInv (s : Sim) : Prop :=
  s.shuttingDown = false ∧ s.queue.Nodup ∧ s.processing.Nodup ∧
    (∀ k ∈ s.queue, k ∈ s.dirty ∧ k ∉ s.processing) ∧
    (∀ k ∈ s.dirty, k ∈ s.queue ∨ k ∈ s.processing)

/-! ## Filter predicate: lemmas -/

theorem selectLoop_eq_true (v : String) (l : List String) (b : Bool) :
    selectLoop v l b = true ↔ (b = true ∨ v ∈ l) := by
  induction l with
  | nil => simp [selectLoop]
  | cons x xs ih =>
    unfold selectLoop
    by_cases hx : x = v
    · simp [hx]
    · have hne : ¬ v = x := fun h => hx h.symm
      simp [hx, hne, ih]

theorem selectGeneric_eq_true (items : StringSlice) (v : String) :
    selectGeneric items v = true ↔ (len items = 0 ∨ v ∈ elems items) := by
  cases items with
  | none => simp [selectGeneric, len]
  | some l =>
    cases l with
    | nil => simp [selectGeneric, len]
    | cons x xs =>
      simp [selectGeneric, len, elems, selectLoop_eq_true]

theorem splitComma_ne_nil (s : List Char) : splitComma s ≠ [] := by
  cases s with
  | nil => simp [splitComma]
  | cons c cs =>
    unfold splitComma
    split
    · simp
    · split <;> simp

theorem splitComma_no_comma (s : List Char) : ∀ v ∈ splitComma s, ',' ∉ v := by
  induction s with
  | nil => simp [splitComma]
  | cons c cs ih =>
    intro v hv
    unfold splitComma at hv
    split at hv
    · rcases List.mem_cons.1 hv with h | h
      · simp [h]
      · exact ih v h
    · rename_i hc
      split at hv
      · rename_i hnil
        exact absurd hnil (splitComma_ne_nil cs)
      · rename_i seg segs hseg
        have hmem : ∀ u ∈ seg :: segs, ',' ∉ u := by
          intro u hu
          exact ih u (hseg ▸ hu)
        rcases List.mem_cons.1 hv with h | h
        · subst h
          intro hin
          rcases List.mem_cons.1 hin with h1 | h1
          · exact hc h1.symm
          · exact hmem seg (List.mem_cons_self _ _) h1
        · exact hmem v (List.mem_cons_of_mem _ h)

theorem splitComma_of_no_comma (v : List Char) (h : ',' ∉ v) : splitComma v = [v] := by
  induction v with
  | nil => simp [splitComma]
  | cons c cs ih =>
    have hc : ¬ c = ',' := fun e => h (by simp [e])
    have hcs : ',' ∉ cs := fun e => h (List.mem_cons_of_mem _ e)
    simp [splitComma, hc, ih hcs]

theorem splitComma_append_comma (a b : List Char) :
    splitComma (a ++ ',' :: b) = splitComma a ++ splitComma b := by
  induction a with
  | nil => simp [splitComma]
  | cons c cs ih =>
    by_cases hc : c = ','
    · simp [splitComma, hc, ih]
    · obtain ⟨seg, segs, hseg⟩ := List.exists_cons_of_ne_nil (splitComma_ne_nil cs)
      simp [splitComma, hc, ih, hseg]

/-- The head of `splitComma s` starts at the start of `s`; every later segment
starts right after a comma; every segment ends at the end of `s` or right
before a comma. -/
theorem splitComma_shape (s : List Char) :
    ∃ seg segs, splitComma s = seg :: segs ∧
      (∃ post, s = seg ++ post ∧ (post = [] ∨ post.head? = some ',')) ∧
      ∀ v ∈ segs, ∃ p post, s = (p ++ [',']) ++ v ++ post ∧
        (post = [] ∨ post.head? = some ',') := by
  induction s with
  | nil => exact ⟨[], [], by simp [splitComma], ⟨[], by simp⟩, by simp⟩
  | cons c cs ih =>
    obtain ⟨seg, segs, hseg, ⟨post, hpost, hp⟩, htail⟩ := ih
    by_cases hc : c = ','
    · refine ⟨[], seg :: segs, by simp [splitComma, hc, hseg], ⟨c :: cs, by simp, ?_⟩, ?_⟩
      · right; simp [hc]
      · intro v hv
        rcases List.mem_cons.1 hv with h | h
        · refine ⟨[], post, ?_, hp⟩
          simp [hc, h, hpost]
        · obtain ⟨p, post2, h1, h2⟩ := htail v h
          refine ⟨c :: p, post2, ?_, h2⟩
          simp [h1]
    · refine ⟨c :: seg, segs, by simp [splitComma, hc, hseg], ⟨post, by simp [hpost], hp⟩, ?_⟩
      intro v hv
      obtain ⟨p, post2, h1, h2⟩ := htail v hv
      refine ⟨c :: p, post2, ?_, h2⟩
      simp [h1]

/-- Membership in the result of splitting is exactly being a comma-delimited
segment. -/
theorem mem_splitComma_iff (v s : List Char) :
    v ∈ splitComma s ↔ IsCommaSegment v s := by
  constructor
  · intro hv
    refine ⟨splitComma_no_comma s v hv, ?_⟩
    obtain ⟨seg, segs, hseg, ⟨post, hpost, hp⟩, htail⟩ := splitComma_shape s
    rw [hseg] at hv
    rcases List.mem_cons.1 hv with h | h
    · exact ⟨[], post, by simp [h, hpost], Or.inl rfl, hp⟩
    · obtain ⟨p, post2, h1, h2⟩ := htail v h
      exact ⟨p ++ [','], post2, h1, Or.inr (by simp), h2⟩
  · rintro ⟨hno, pre, post, hs, hpre, hpost⟩
    have key : v ∈ splitComma (pre ++ v) := by
      rcases hpre with h | h
      · simp [h, splitComma_of_no_comma v hno]
      · have hne : pre ≠ [] := by
          intro e; simp [e] at h
        have hlast : pre.getLast hne = ',' := by
          have := List.getLast?_eq_getLast pre hne
          rw [this] at h
          exact Option.some.inj h
        have hsplit : pre = pre.dropLast ++ [','] := by
          rw [← hlast]; exact (List.dropLast_append_getLast hne).symm
        rw [hsplit, List.append_assoc, List.singleton_append, splitComma_append_comma,
          splitComma_of_no_comma v hno]
        simp
    rcases hpost with h | h
    · subst h; simpa [hs] using key
    · cases post with
      | nil => simp at h
      | cons d ds =>
        have hd : d = ',' := by simpa using h
        subst hd
        rw [hs, splitComma_append_comma]
        exact List.mem_append_left _ key

theorem mem_stringsSplit_iff (v s : String) :
    v ∈ stringsSplit s ↔ IsCommaSegment v.data s.data := by
  rw [← mem_splitComma_iff]
  unfold stringsSplit
  constructor
  · intro h
    obtain ⟨l, hl, e⟩ := List.mem_map.1 h
    subst e
    exact hl
  · intro h
    exact List.mem_map.2 ⟨v.data, h, rfl⟩

/-- As many segments as commas, plus one (Go allocates `Count(s, ",") + 1`). -/
theorem splitComma_length (s : List Char) :
    (splitComma s).length = s.count ',' + 1 := by
  induction s with
  | nil => simp [splitComma]
  | cons c cs ih =>
    by_cases hc : c = ','
    · simp [splitComma, hc, ih]
    · obtain ⟨seg, segs, hseg⟩ := List.exists_cons_of_ne_nil (splitComma_ne_nil cs)
      have hne : ¬ (c == ',') = true := by simpa using hc
      rw [hseg] at ih
      simp only [splitComma, hc, if_false, hseg, List.length_cons, List.count_cons, hne]
      simpa using ih

/-- Joining the segments with commas gives the string back
(`strings.Join(strings.Split(s, ","), ",") == s`). -/
theorem splitComma_join (s : List Char) :
    List.intercalate [','] (splitComma s) = s := by
  induction s with
  | nil => simp [splitComma, List.intercalate]
  | cons c cs ih =>
    obtain ⟨seg, segs, hseg⟩ := List.exists_cons_of_ne_nil (splitComma_ne_nil cs)
    rw [hseg] at ih
    by_cases hc : c = ','
    · subst hc
      simp only [splitComma, if_true, hseg]
      cases segs with
      | nil =>
        simp [List.intercalate] at ih ⊢
        exact ih
      | cons t ts =>
        simp [List.intercalate] at ih ⊢
        exact ih
    · simp only [splitComma, hc, if_false, hseg]
      cases segs with
      | nil =>
        simp [List.intercalate] at ih ⊢
        exact ih
      | cons t ts =>
        simp [List.intercalate] at ih ⊢
        exact ih

/-- The cases of `TestSelectEvent` and `TestSelectGeneric` in
`selectevent_test.go`. -/
theorem selectevent_test_cases :
    selectEvent (getState "Warning" "" "") "Warning" "" "" = true ∧
    selectEvent (getState "" "Pod" "") "" "Pod" "" = true ∧
    selectEvent (getState "" "" "Failed") "" "" "Failed" = true ∧
    selectEvent (getState "Warning" "" "") "Normal" "" "" = false ∧
    selectEvent (getState "Warning" "ConfigMap" "") "Warning" "" "" = false ∧
    selectEvent (getState "Warning" "" "Completed") "Warning" ""
      "Failed,Evicted,FailedMount" = false ∧
    selectGeneric (some []) "Warning" = true ∧
    selectGeneric (some ["Normal", "Warning"]) "Warning" = true ∧
    selectGeneric (some ["Failed", "Evicted"]) "FailedScheduling" = false ∧
    stringsSplit "Pod,ConfigMap" = ["Pod", "ConfigMap"] ∧
    stringsSplit "a,,b," = ["a", "", "b", ""] := by
  decide

theorem splitParameter_len (s : String) : len (splitParameter s) = 0 ↔ s = "" := by
  have hd : s = "" ↔ s.data = [] := by
    constructor
    · intro h; simp [h]
    · intro h; exact String.ext h
  by_cases h : s.data = []
  · simp [splitParameter, len, h, hd]
  · have hpos : 0 < s.length := List.length_pos.2 h
    have hne : splitComma s.data ≠ [] := splitComma_ne_nil s.data
    simp [splitParameter, len, hpos, stringsSplit, hd, h, hne]

theorem splitParameter_elems (s : String) (h : s ≠ "") :
    elems (splitParameter s) = stringsSplit s := by
  have hne : s.data ≠ [] := fun e => h (String.ext e)
  have hpos : 0 < s.length := List.length_pos.2 hne
  simp [splitParameter, elems, hpos]

theorem selectGeneric_splitParameter (s v : String) :
    selectGeneric (splitParameter s) v = true ↔ (s = "" ∨ v ∈ stringsSplit s) := by
  rw [selectGeneric_eq_true, splitParameter_len]
  by_cases h : s = ""
  · simp [h]
  · simp [h, splitParameter_elems s h]

theorem selectGeneric_comma (s v : String) (hs : s ≠ "") (hv : ',' ∈ v.data) :
    selectGeneric (splitParameter s) v = false := by
  rw [Bool.eq_false_iff]
  intro h
  rcases (selectGeneric_splitParameter s v).1 h with h1 | h1
  · exact hs h1
  · exact ((mem_stringsSplit_iff v s).1 h1).1 hv

/-! ## Filter predicate: the claims -/

/-- C1. For every State and every triple of strings, `selectEvent` is true iff
for each of the three dimensions the allow-list is empty or the observed value
is an element of it (string equality); `selectEvent` is the conjunction of
`selectGeneric` on the three dimensions, and `selectGeneric items v` is
"`items` is empty or `v` is a member of `items`". -/
theorem selectEvent_iff_allowLists (state : State) (eventType involvedObject reason : String) :
    (selectEvent state eventType involvedObject reason = true ↔
      (len state.eventTypes = 0 ∨ eventType ∈ elems state.eventTypes) ∧
      (len state.involvedObjects = 0 ∨ involvedObject ∈ elems state.involvedObjects) ∧
      (len state.reasons = 0 ∨ reason ∈ elems state.reasons)) ∧
    selectEvent state eventType involvedObject reason =
      (selectGeneric state.eventTypes eventType &&
        selectGeneric state.involvedObjects involvedObject &&
        selectGeneric state.reasons reason) ∧
    ∀ (items : StringSlice) (v : String),
      selectGeneric items v = decide (len items = 0 ∨ v ∈ elems items) := by
  refine ⟨?_, rfl, ?_⟩
  · simp only [selectEvent, Bool.and_eq_true, selectGeneric_eq_true, and_assoc]
  · intro items v
    have h := selectGeneric_eq_true items v
    cases hg : selectGeneric items v
    · rw [hg] at h
      symm
      rw [decide_eq_false_iff_not]
      intro hp
      exact Bool.false_ne_true (h.2 hp)
    · symm
      rw [decide_eq_true_iff]
      exact h.1 hg

/-- C2. When the three allow-lists of the State are all empty (nil or of length
zero), `selectEvent` is true for every triple of strings; `selectGeneric` on an
empty list is true for every value. -/
theorem selectEvent_all_empty (state : State)
    (h1 : len state.eventTypes = 0) (h2 : len state.involvedObjects = 0)
    (h3 : len state.reasons = 0) :
    (∀ eventType involvedObject reason : String,
      selectEvent state eventType involvedObject reason = true) ∧
    ∀ (items : StringSlice) (v : String), len items = 0 → selectGeneric items v = true := by
  constructor
  · intro a b c
    simp [selectEvent, selectGeneric_eq_true, h1, h2, h3]
  · intro items v h
    exact (selectGeneric_eq_true items v).2 (Or.inl h)

/-- Witness for C2: a State with a nil, an empty non-nil and a nil allow-list. -/
theorem selectEvent_all_empty_witness :
    (∀ eventType involvedObject reason : String,
      selectEvent { eventTypes := none, involvedObjects := some [], reasons := none }
        eventType involvedObject reason = true) ∧
    ∀ (items : StringSlice) (v : String), len items = 0 → selectGeneric items v = true :=
  selectEvent_all_empty { eventTypes := none, involvedObjects := some [], reasons := none }
    (by decide) (by decide) (by decide)

/-- C3. For all configuration strings and observed values,
`selectEvent (getState types involvedObjects reasons)` is true iff for each
dimension the configuration string is empty or the observed value is one of the
segments of the configuration string split at every comma; the segments are
exactly the comma-delimited, comma-free pieces; so an observed value that
contains a comma is rejected by every non-empty configuration string of its
dimension. -/
theorem selectEvent_getState (types involvedObjects reasons : String)
    (eventType involvedObject reason : String) :
    (selectEvent (getState types involvedObjects reasons) eventType involvedObject reason = true ↔
      (types = "" ∨ eventType ∈ stringsSplit types) ∧
      (involvedObjects = "" ∨ involvedObject ∈ stringsSplit involvedObjects) ∧
      (reasons = "" ∨ reason ∈ stringsSplit reasons)) ∧
    (∀ v s : String, v ∈ stringsSplit s ↔ IsCommaSegment v.data s.data) ∧
    ((types ≠ "" ∧ ',' ∈ eventType.data) ∨
      (involvedObjects ≠ "" ∧ ',' ∈ involvedObject.data) ∨
      (reasons ≠ "" ∧ ',' ∈ reason.data) →
      selectEvent (getState types involvedObjects reasons) eventType involvedObject reason
        = false) := by
  refine ⟨?_, mem_stringsSplit_iff, ?_⟩
  · simp only [selectEvent, getState, Bool.and_eq_true, selectGeneric_splitParameter, and_assoc]
  · intro h
    rcases h with ⟨hs, hv⟩ | ⟨hs, hv⟩ | ⟨hs, hv⟩
    · simp [selectEvent, getState, selectGeneric_comma types eventType hs hv]
    · simp [selectEvent, getState, selectGeneric_comma involvedObjects involvedObject hs hv]
    · simp [selectEvent, getState, selectGeneric_comma reasons reason hs hv]

/-- Witness for C3: the configuration `types=Warning`, `reasons=Completed` and
the observed reason `Failed,Evicted,FailedMount` of the test `mismatch_reason`. -/
theorem selectEvent_getState_witness :
    selectEvent (getState "Warning" "" "Completed") "Warning" "" "Failed,Evicted,FailedMount"
      = false :=
  (selectEvent_getState "Warning" "" "Completed" "Warning" "" "Failed,Evicted,FailedMount").2.2
    (Or.inr (Or.inr ⟨by decide, by decide⟩))

/-! ## Reconciliation step: lemmas -/

theorem newCalls_append (t added : List Call) : newCalls t (t ++ added) = added := by
  simp [newCalls]

theorem handleErr_nil {σ : Type} (c : Controller σ) (key : String) (w : World σ) :
    handleErr c none key w =
      { ext := c.queue.Forget key w.ext, trace := w.trace ++ [.queueForget key] } := rfl

theorem handleErr_retry {σ : Type} (c : Controller σ) (e : GoError) (key : String)
    (w : World σ) (h : (c.queue.NumRequeues key w.ext).1 < 5) :
    handleErr c (some e) key w =
      { ext := c.queue.AddRateLimited key (c.queue.NumRequeues key w.ext).2
        trace := w.trace ++ [.queueNumRequeues key, .logPrintln (.cantSync key e),
          .queueAddRateLimited key] } := by
  simp [handleErr, World.ask, World.act, World.record, h]

theorem handleErr_drop {σ : Type} (c : Controller σ) (e : GoError) (key : String)
    (w : World σ) (h : 5 ≤ (c.queue.NumRequeues key w.ext).1) :
    handleErr c (some e) key w =
      { ext := c.queue.Forget key (c.queue.NumRequeues key w.ext).2
        trace := w.trace ++ [.queueNumRequeues key, .queueForget key, .runtimeHandleError e,
          .logPrintln (.dropping key e)] } := by
  have h2 : ¬ (c.queue.NumRequeues key w.ext).1 < 5 := by omega
  simp [handleErr, World.ask, World.act, World.record, h2]

theorem syncToStdout_fetch_error {σ : Type} (p : Packages σ) (c : Controller σ) (key : String)
    (w : World σ) (e : GoError) (h : (c.indexer.GetByKey key w.ext).1.2.2 = some e) :
    syncToStdout p c key w =
      (some e, { ext := (c.indexer.GetByKey key w.ext).2
                 trace := w.trace ++ [.indexerGetByKey key,
                   .logPrintln (.fetchFailed key e)] }) := by
  simp [syncToStdout, World.ask, World.record, h]

theorem syncToStdout_not_found {σ : Type} (p : Packages σ) (c : Controller σ) (key : String)
    (w : World σ) (herr : (c.indexer.GetByKey key w.ext).1.2.2 = none)
    (hobj : (c.indexer.GetByKey key w.ext).1.1 = none) :
    syncToStdout p c key w =
      (none, { ext := (c.indexer.GetByKey key w.ext).2
               trace := w.trace ++ [.indexerGetByKey key] }) := by
  simp [syncToStdout, World.ask, herr, hobj]

theorem syncToStdout_rejected {σ : Type} (p : Packages σ) (c : Controller σ) (key : String)
    (w : World σ) (ev : Event) (herr : (c.indexer.GetByKey key w.ext).1.2.2 = none)
    (hobj : (c.indexer.GetByKey key w.ext).1.1 = some ev)
    (hsel : selectEvent c.state ev.Type_ ev.InvolvedObject.Kind ev.Reason = false) :
    syncToStdout p c key w =
      (none, { ext := (c.indexer.GetByKey key w.ext).2
               trace := w.trace ++ [.indexerGetByKey key] }) := by
  simp [syncToStdout, World.ask, herr, hobj, hsel]

theorem syncToStdout_marshal_failed {σ : Type} (p : Packages σ) (c : Controller σ)
    (key : String) (w : World σ) (ev : Event) (e : GoError)
    (herr : (c.indexer.GetByKey key w.ext).1.2.2 = none)
    (hobj : (c.indexer.GetByKey key w.ext).1.1 = some ev)
    (hsel : selectEvent c.state ev.Type_ ev.InvolvedObject.Kind ev.Reason = true)
    (hm : p.jsonMarshal ev = .error e) :
    syncToStdout p c key w =
      (none, { ext := (c.indexer.GetByKey key w.ext).2
               trace := w.trace ++ [.indexerGetByKey key,
                 .logPrintln (.marshalFailed e)] }) := by
  simp [syncToStdout, World.ask, World.record, herr, hobj, hsel, hm]

theorem syncToStdout_emit {σ : Type} (p : Packages σ) (c : Controller σ)
    (key : String) (w : World σ) (ev : Event) (bytes : String)
    (herr : (c.indexer.GetByKey key w.ext).1.2.2 = none)
    (hobj : (c.indexer.GetByKey key w.ext).1.1 = some ev)
    (hsel : selectEvent c.state ev.Type_ ev.InvolvedObject.Kind ev.Reason = true)
    (hm : p.jsonMarshal ev = .ok bytes) :
    syncToStdout p c key w =
      (none, { ext := (c.queue.Len (c.indexer.GetByKey key w.ext).2).2
               trace := w.trace ++ [.indexerGetByKey key, .fmtPrintf (bytes ++ "\n"),
                 .queueLen] }) := by
  simp [syncToStdout, World.ask, World.record, herr, hobj, hsel, hm]

/-- The five exits of `syncToStdout`: what it returns and which actions it
appends in each. -/
theorem syncToStdout_cases {σ : Type} (p : Packages σ) (c : Controller σ) (key : String)
    (w : World σ) :
    ∃ calls, (syncToStdout p c key w).2.trace = w.trace ++ calls ∧
      ((∃ e, (syncToStdout p c key w).1 = some e ∧
          calls = [.indexerGetByKey key, .logPrintln (.fetchFailed key e)]) ∨
       ((syncToStdout p c key w).1 = none ∧
          (calls = [.indexerGetByKey key] ∨
           (∃ e, calls = [.indexerGetByKey key, .logPrintln (.marshalFailed e)]) ∨
           (∃ bytes, calls = [.indexerGetByKey key, .fmtPrintf (bytes ++ "\n"),
              .queueLen])))) := by
  cases herr : (c.indexer.GetByKey key w.ext).1.2.2 with
  | some e =>
    rw [syncToStdout_fetch_error p c key w e herr]
    exact ⟨_, rfl, Or.inl ⟨e, rfl, rfl⟩⟩
  | none =>
    cases hobj : (c.indexer.GetByKey key w.ext).1.1 with
    | none =>
      rw [syncToStdout_not_found p c key w herr hobj]
      exact ⟨_, rfl, Or.inr ⟨rfl, Or.inl rfl⟩⟩
    | some ev =>
      cases hsel : selectEvent c.state ev.Type_ ev.InvolvedObject.Kind ev.Reason with
      | false =>
        rw [syncToStdout_rejected p c key w ev herr hobj hsel]
        exact ⟨_, rfl, Or.inr ⟨rfl, Or.inl rfl⟩⟩
      | true =>
        cases hm : p.jsonMarshal ev with
        | error e =>
          rw [syncToStdout_marshal_failed p c key w ev e herr hobj hsel hm]
          exact ⟨_, rfl, Or.inr ⟨rfl, Or.inr (Or.inl ⟨e, rfl⟩)⟩⟩
        | ok bytes =>
          rw [syncToStdout_emit p c key w ev bytes herr hobj hsel hm]
          exact ⟨_, rfl, Or.inr ⟨rfl, Or.inr (Or.inr ⟨bytes, rfl⟩)⟩⟩

/-- The actions of `handleErr`, whatever the error and the requeue count. -/
theorem handleErr_cases {σ : Type} (c : Controller σ) (err : Option GoError) (key : String)
    (w : World σ) :
    ∃ calls, (handleErr c err key w).trace = w.trace ++ calls ∧
      (calls = [.queueForget key] ∨
       (∃ e, calls = [.queueNumRequeues key, .logPrintln (.cantSync key e),
          .queueAddRateLimited key]) ∨
       (∃ e, calls = [.queueNumRequeues key, .queueForget key, .runtimeHandleError e,
          .logPrintln (.dropping key e)])) := by
  cases err with
  | none => exact ⟨_, by rw [handleErr_nil], Or.inl rfl⟩
  | some e =>
    by_cases hn : (c.queue.NumRequeues key w.ext).1 < 5
    · exact ⟨_, by rw [handleErr_retry c e key w hn], Or.inr (Or.inl ⟨e, rfl⟩)⟩
    · have h5 : 5 ≤ (c.queue.NumRequeues key w.ext).1 := by omega
      exact ⟨_, by rw [handleErr_drop c e key w h5], Or.inr (Or.inr ⟨e, rfl⟩)⟩

theorem processNextItem_blocked {σ : Type} (p : Packages σ) (c : Controller σ) (w : World σ)
    (h : c.queue.Get w.ext = none) :
    processNextItem p c w = .blocked (w.record .queueGet) := by
  simp [processNextItem, h]

theorem processNextItem_shutdown {σ : Type} (p : Packages σ) (c : Controller σ) (w : World σ)
    (key : String) (e1 : σ) (h : c.queue.Get w.ext = some ((key, true), e1)) :
    processNextItem p c w = .returned false { ext := e1, trace := w.trace ++ [.queueGet] } := by
  simp [processNextItem, h]

theorem processNextItem_key {σ : Type} (p : Packages σ) (c : Controller σ) (w : World σ)
    (key : String) (e1 : σ) (h : c.queue.Get w.ext = some ((key, false), e1)) :
    processNextItem p c w =
      .returned true
        ((handleErr c (syncToStdout p c key { ext := e1, trace := w.trace ++ [.queueGet] }).1
            key (syncToStdout p c key { ext := e1, trace := w.trace ++ [.queueGet] }).2).act
          (.queueDone key) (c.queue.Done key)) := by
  simp [processNextItem, h]

/-- After `Get` delivered `key`, the attempt appends the actions of
`syncToStdout`, then one retry decision, then `Done(key)` as its last action. -/
theorem processNextItem_key_trace {σ : Type} (p : Packages σ) (c : Controller σ)
    (w : World σ) (key : String) (e1 : σ)
    (h : c.queue.Get w.ext = some ((key, false), e1)) :
    ∃ w2 mid, processNextItem p c w = .returned true w2 ∧
      w2.trace = w.trace ++ ([.queueGet] ++ mid ++ [.queueDone key]) ∧
      (∃ e2, w2.ext = c.queue.Done key e2) ∧
      (∀ k, Call.queueDone k ∉ mid) ∧
      mid.count (.queueForget key) + mid.count (.queueAddRateLimited key) = 1 := by
  obtain ⟨sc, hsc, hsync⟩ :=
    syncToStdout_cases p c key { ext := e1, trace := w.trace ++ [.queueGet] }
  obtain ⟨hc, hhc, hhandle⟩ := handleErr_cases c
    (syncToStdout p c key { ext := e1, trace := w.trace ++ [.queueGet] }).1 key
    (syncToStdout p c key { ext := e1, trace := w.trace ++ [.queueGet] }).2
  refine ⟨_, sc ++ hc, processNextItem_key p c w key e1 h, ?_, ⟨_, rfl⟩, ?_, ?_⟩
  · simp only [World.act, hhc, hsc]
    simp
  · intro k hk
    rcases List.mem_append.1 hk with h1 | h1
    · rcases hsync with ⟨e, -, hcalls⟩ | ⟨-, hcalls | ⟨e, hcalls⟩ | ⟨b, hcalls⟩⟩ <;>
        (rw [hcalls] at h1; simp at h1)
    · rcases hhandle with hcalls | ⟨e, hcalls⟩ | ⟨e, hcalls⟩ <;>
        (rw [hcalls] at h1; simp at h1)
  · have hs0 : sc.count (.queueForget key) = 0 ∧ sc.count (.queueAddRateLimited key) = 0 := by
      rcases hsync with ⟨e, -, hcalls⟩ | ⟨-, hcalls | ⟨e, hcalls⟩ | ⟨b, hcalls⟩⟩ <;>
        (rw [hcalls]; simp [List.count_cons])
    have hh1 : hc.count (.queueForget key) + hc.count (.queueAddRateLimited key) = 1 := by
      rcases hhandle with hcalls | ⟨e, hcalls⟩ | ⟨e, hcalls⟩ <;>
        (rw [hcalls]; simp [List.count_cons])
    rw [List.count_append, List.count_append, hs0.1, hs0.2]
    omega

theorem attempts_succ_of_key {σ : Type} (p : Packages σ) (c : Controller σ) (w w2 : World σ)
    (n : Nat) (h : processNextItem p c w = .returned true w2) :
    attempts p c (n + 1) w = attempts p c n w2 := by
  simp [attempts, h]

/-! ## Reconciliation step: the claims -/

/-- C4. For every key and every outcome, `handleErr` performs exactly one of
three queue actions: on a nil error `Forget(key)` and nothing else; on an error
with `NumRequeues(key) < 5` one `AddRateLimited(key)` and no `Forget`; on an
error with `NumRequeues(key) >= 5` one `Forget(key)`, no `AddRateLimited`, and the
error goes to `runtime.HandleError`.  Never both `Forget` and `AddRateLimited`. -/
theorem handleErr_one_queue_action {σ : Type} (c : Controller σ) (err : Option GoError)
    (key : String) (w : World σ) :
    (err = none →
      handleErr c err key w =
        { ext := c.queue.Forget key w.ext, trace := w.trace ++ [.queueForget key] }) ∧
    (∀ e, err = some e → (c.queue.NumRequeues key w.ext).1 < 5 →
      handleErr c err key w =
        { ext := c.queue.AddRateLimited key (c.queue.NumRequeues key w.ext).2
          trace := w.trace ++ [.queueNumRequeues key, .logPrintln (.cantSync key e),
            .queueAddRateLimited key] }) ∧
    (∀ e, err = some e → 5 ≤ (c.queue.NumRequeues key w.ext).1 →
      handleErr c err key w =
        { ext := c.queue.Forget key (c.queue.NumRequeues key w.ext).2
          trace := w.trace ++ [.queueNumRequeues key, .queueForget key,
            .runtimeHandleError e, .logPrintln (.dropping key e)] }) ∧
    (newCalls w.trace (handleErr c err key w).trace).count (.queueForget key) +
      (newCalls w.trace (handleErr c err key w).trace).count (.queueAddRateLimited key) = 1 ∧
    (∀ k, Call.queueForget k ∈ newCalls w.trace (handleErr c err key w).trace ∨
        Call.queueAddRateLimited k ∈ newCalls w.trace (handleErr c err key w).trace → k = key) ∧
    (surfaced (newCalls w.trace (handleErr c err key w).trace) =
      match err with
      | none => []
      | some e => if (c.queue.NumRequeues key w.ext).1 < 5 then [] else [e]) := by
  refine ⟨?_, ?_, ?_, ?_⟩
  · intro h; subst h; rfl
  · intro e h hn; subst h; exact handleErr_retry c e key w hn
  · intro e h hn; subst h; exact handleErr_drop c e key w hn
  · cases err with
    | none =>
      rw [handleErr_nil, newCalls_append]
      refine ⟨by simp, ?_, by simp [surfaced]⟩
      intro k hk
      simpa using hk
    | some e =>
      by_cases hn : (c.queue.NumRequeues key w.ext).1 < 5
      · rw [handleErr_retry c e key w hn, newCalls_append]
        refine ⟨by simp [List.count_cons], ?_, by simp [surfaced, hn]⟩
        intro k hk
        simpa using hk
      · have h5 : 5 ≤ (c.queue.NumRequeues key w.ext).1 := by omega
        rw [handleErr_drop c e key w h5, newCalls_append]
        refine ⟨by simp [List.count_cons], ?_, by simp [surfaced, hn]⟩
        intro k hk
        simpa using hk

/-- C6. For every key whose lookup succeeds with a present record that the
filter accepts and that serializes to `bytes`, one `processNextItem` emits
exactly one output, `bytes` followed by a newline, calls `Forget(key)` exactly
once and never calls `AddRateLimited`. -/
theorem processNextItem_emits_once {σ : Type} (p : Packages σ) (c : Controller σ)
    (w : World σ) (key : String) (e1 : σ) (ev : Event) (bytes : String)
    (hget : c.queue.Get w.ext = some ((key, false), e1))
    (herr : (c.indexer.GetByKey key e1).1.2.2 = none)
    (hobj : (c.indexer.GetByKey key e1).1.1 = some ev)
    (hsel : selectEvent c.state ev.Type_ ev.InvolvedObject.Kind ev.Reason = true)
    (hm : p.jsonMarshal ev = .ok bytes) :
    ∃ w2, processNextItem p c w = .returned true w2 ∧
      w2.trace = w.trace ++ [.queueGet, .indexerGetByKey key, .fmtPrintf (bytes ++ "\n"),
        .queueLen, .queueForget key, .queueDone key] ∧
      emitted (newCalls w.trace w2.trace) = [bytes ++ "\n"] ∧
      (newCalls w.trace w2.trace).count (.queueForget key) = 1 ∧
      ∀ k, Call.queueAddRateLimited k ∉ newCalls w.trace w2.trace := by
  have hs := syncToStdout_emit p c key { ext := e1, trace := w.trace ++ [.queueGet] } ev bytes
    herr hobj hsel hm
  refine ⟨_, processNextItem_key p c w key e1 hget, ?_⟩
  rw [hs]
  have ht : (World.act (handleErr c none key
      { ext := (c.queue.Len (c.indexer.GetByKey key e1).2).2
        trace := (w.trace ++ [Call.queueGet]) ++ [.indexerGetByKey key,
          .fmtPrintf (bytes ++ "\n"), .queueLen] })
      (.queueDone key) (c.queue.Done key)).trace =
      w.trace ++ [.queueGet, .indexerGetByKey key, .fmtPrintf (bytes ++ "\n"),
        .queueLen, .queueForget key, .queueDone key] := by
    simp [handleErr_nil, World.act]
  refine ⟨ht, ?_⟩
  rw [ht, newCalls_append]
  refine ⟨by simp [emitted], by simp [List.count_cons], ?_⟩
  intro k hk
  simp at hk

/-- Witness for C6: allow-list types `Warning`, the other lists open, the record
`podEvent` under the key `ns/pod-1`. -/
theorem processNextItem_emits_once_witness :
    ∃ w2, processNextItem simPackages (simController (getState "Warning" "" ""))
        (simWorld ["ns/pod-1"] (podStore podEvent)) = .returned true w2 ∧
      w2.trace = (simWorld ["ns/pod-1"] (podStore podEvent)).trace ++
        [.queueGet, .indexerGetByKey "ns/pod-1",
          .fmtPrintf ("[Warning Pod FailedMount ns/pod-1]" ++ "\n"),
          .queueLen, .queueForget "ns/pod-1", .queueDone "ns/pod-1"] ∧
      emitted (newCalls (simWorld ["ns/pod-1"] (podStore podEvent)).trace w2.trace) =
        ["[Warning Pod FailedMount ns/pod-1]" ++ "\n"] ∧
      (newCalls (simWorld ["ns/pod-1"] (podStore podEvent)).trace w2.trace).count
        (.queueForget "ns/pod-1") = 1 ∧
      ∀ k, Call.queueAddRateLimited k ∉
        newCalls (simWorld ["ns/pod-1"] (podStore podEvent)).trace w2.trace :=
  processNextItem_emits_once simPackages (simController (getState "Warning" "" ""))
    (simWorld ["ns/pod-1"] (podStore podEvent)) "ns/pod-1" _ podEvent
    "[Warning Pod FailedMount ns/pod-1]" rfl (by decide) (by decide) (by decide) rfl

/-- C7. For every key whose lookup returns no retrieval error but yields no
emission (nil object, or the filter rejects the record, or its serialization
fails), `syncToStdout` returns a nil error and emits nothing, and the attempt
emits nothing, calls `Forget(key)` exactly once and never calls
`AddRateLimited`. -/
theorem processNextItem_success_no_op {σ : Type} (p : Packages σ) (c : Controller σ)
    (w : World σ) (key : String) (e1 : σ)
    (hget : c.queue.Get w.ext = some ((key, false), e1))
    (herr : (c.indexer.GetByKey key e1).1.2.2 = none)
    (hno : (c.indexer.GetByKey key e1).1.1 = none ∨
      ∃ ev, (c.indexer.GetByKey key e1).1.1 = some ev ∧
        (selectEvent c.state ev.Type_ ev.InvolvedObject.Kind ev.Reason = false ∨
          ∃ e, p.jsonMarshal ev = .error e)) :
    (∀ t, (syncToStdout p c key { ext := e1, trace := t }).1 = none ∧
      emitted (newCalls t (syncToStdout p c key { ext := e1, trace := t }).2.trace) = []) ∧
    ∃ w2 logs, processNextItem p c w = .returned true w2 ∧
      w2.trace = w.trace ++ ([.queueGet, .indexerGetByKey key] ++ logs ++
        [.queueForget key, .queueDone key]) ∧
      (logs = [] ∨ ∃ e, logs = [.logPrintln (.marshalFailed e)]) ∧
      emitted (newCalls w.trace w2.trace) = [] ∧
      (newCalls w.trace w2.trace).count (.queueForget key) = 1 ∧
      ∀ k, Call.queueAddRateLimited k ∉ newCalls w.trace w2.trace := by
  have hshape : ∃ logs, (logs = [] ∨ ∃ e, logs = [Call.logPrintln (.marshalFailed e)]) ∧
      ∀ t, syncToStdout p c key { ext := e1, trace := t } =
        (none, { ext := (c.indexer.GetByKey key e1).2
                 trace := t ++ ([.indexerGetByKey key] ++ logs) }) := by
    rcases hno with hnil | ⟨ev, hobj, hrest⟩
    · exact ⟨[], Or.inl rfl, fun t =>
        syncToStdout_not_found p c key { ext := e1, trace := t } herr hnil⟩
    · cases hsel : selectEvent c.state ev.Type_ ev.InvolvedObject.Kind ev.Reason with
      | false =>
        exact ⟨[], Or.inl rfl, fun t =>
          syncToStdout_rejected p c key { ext := e1, trace := t } ev herr hobj hsel⟩
      | true =>
        rcases hrest with hf | ⟨e, hm⟩
        · rw [hsel] at hf; exact absurd hf (by decide)
        · exact ⟨[.logPrintln (.marshalFailed e)], Or.inr ⟨e, rfl⟩, fun t =>
            syncToStdout_marshal_failed p c key { ext := e1, trace := t } ev e herr hobj
              hsel hm⟩
  obtain ⟨logs, hlogs, hs⟩ := hshape
  have hquiet : emitted ([Call.indexerGetByKey key] ++ logs) = [] := by
    rcases hlogs with h | ⟨e, h⟩ <;> (subst h; simp [emitted])
  refine ⟨fun t => ⟨by rw [hs t], by rw [hs t, newCalls_append]; exact hquiet⟩,
    _, logs, processNextItem_key p c w key e1 hget, ?_⟩
  rw [hs]
  have ht : (World.act (handleErr c none key
      { ext := (c.indexer.GetByKey key e1).2
        trace := (w.trace ++ [Call.queueGet]) ++ ([.indexerGetByKey key] ++ logs) })
      (.queueDone key) (c.queue.Done key)).trace =
      w.trace ++ ([.queueGet, .indexerGetByKey key] ++ logs ++
        [.queueForget key, .queueDone key]) := by
    simp [handleErr_nil, World.act]
  refine ⟨ht, hlogs, ?_⟩
  rw [ht, newCalls_append]
  rcases hlogs with h | ⟨e, h⟩
  · subst h
    refine ⟨by simp [emitted], by simp [List.count_cons], ?_⟩
    intro k hk
    simp at hk
  · subst h
    refine ⟨by simp [emitted], by simp [List.count_cons], ?_⟩
    intro k hk
    simp at hk

/-- Witness for C7: allow-list types `Warning` and a record of category
`Normal` under the key `ns/pod-1`. -/
theorem processNextItem_success_no_op_witness :
    ∃ w2 logs, processNextItem simPackages (simController (getState "Warning" "" ""))
        (simWorld ["ns/pod-1"] (podStore normalEvent)) = .returned true w2 ∧
      w2.trace = (simWorld ["ns/pod-1"] (podStore normalEvent)).trace ++
        ([.queueGet, .indexerGetByKey "ns/pod-1"] ++ logs ++
          [.queueForget "ns/pod-1", .queueDone "ns/pod-1"]) ∧
      (logs = [] ∨ ∃ e, logs = [.logPrintln (.marshalFailed e)]) ∧
      emitted (newCalls (simWorld ["ns/pod-1"] (podStore normalEvent)).trace w2.trace) = [] ∧
      (newCalls (simWorld ["ns/pod-1"] (podStore normalEvent)).trace w2.trace).count
        (.queueForget "ns/pod-1") = 1 ∧
      ∀ k, Call.queueAddRateLimited k ∉
        newCalls (simWorld ["ns/pod-1"] (podStore normalEvent)).trace w2.trace :=
  (processNextItem_success_no_op simPackages (simController (getState "Warning" "" ""))
    (simWorld ["ns/pod-1"] (podStore normalEvent)) "ns/pod-1" _
    rfl (by decide)
    (Or.inr ⟨normalEvent, by decide, Or.inl (by decide)⟩)).2

/-- C8. For every state, one `processNextItem` either observes shutdown from
`Get`, returns false and does nothing else (no `Done`, `Forget`,
`AddRateLimited`, no emission), or obtains a key, returns true and calls
`Done(key)` exactly once, as its last action, after the retry decision, on every
path; it does not return while `Get` blocks.  `runWorker` returns exactly when,
after some number of attempts that each obtained a key, `Get` reports
shutdown. -/
theorem processNextItem_done_once {σ : Type} (p : Packages σ) (c : Controller σ)
    (w : World σ) :
    (c.queue.Get w.ext = none → processNextItem p c w = .blocked (w.record .queueGet)) ∧
    (∀ key e1, c.queue.Get w.ext = some ((key, true), e1) →
      processNextItem p c w =
        .returned false { ext := e1, trace := w.trace ++ [.queueGet] }) ∧
    (∀ key e1, c.queue.Get w.ext = some ((key, false), e1) →
      ∃ w2 mid, processNextItem p c w = .returned true w2 ∧
        w2.trace = w.trace ++ ([.queueGet] ++ mid ++ [.queueDone key]) ∧
        (∃ e2, w2.ext = c.queue.Done key e2) ∧
        (∀ k, Call.queueDone k ∉ mid) ∧
        mid.count (.queueForget key) + mid.count (.queueAddRateLimited key) = 1) ∧
    (∀ fuel w2, runWorker p c fuel w = some (.returned () w2) ↔
      ∃ n wn key e, n < fuel ∧ attempts p c n w = some wn ∧
        c.queue.Get wn.ext = some ((key, true), e) ∧
        w2 = { ext := e, trace := wn.trace ++ [.queueGet] }) := by
  refine ⟨processNextItem_blocked p c w, processNextItem_shutdown p c w,
    processNextItem_key_trace p c w, ?_⟩
  intro fuel
  induction fuel generalizing w with
  | zero =>
    intro w2
    simp [runWorker]
  | succ fuel ih =>
    intro w2
    cases hget : c.queue.Get w.ext with
    | none =>
      have hp := processNextItem_blocked p c w hget
      constructor
      · intro h
        simp [runWorker, hp] at h
      · rintro ⟨n, wn, key, e, -, hat, hg, -⟩
        cases n with
        | zero =>
          simp only [attempts, Option.some.injEq] at hat
          subst hat
          rw [hget] at hg
          exact absurd hg (by simp)
        | succ n => simp [attempts, hp] at hat
    | some r =>
      obtain ⟨⟨key, quit⟩, e1⟩ := r
      cases quit with
      | true =>
        have hp := processNextItem_shutdown p c w key e1 hget
        constructor
        · intro h
          simp only [runWorker, hp, Option.some.injEq, Result.returned.injEq, true_and] at h
          exact ⟨0, w, key, e1, Nat.succ_pos _, rfl, hget, h.symm⟩
        · rintro ⟨n, wn, key2, e, -, hat, hg, hw⟩
          cases n with
          | zero =>
            simp only [attempts, Option.some.injEq] at hat
            subst hat
            rw [hget] at hg
            simp only [Option.some.injEq, Prod.mk.injEq, and_true] at hg
            obtain ⟨-, he⟩ := hg
            subst he
            simp [runWorker, hp, hw]
          | succ n => simp [attempts, hp] at hat
      | false =>
        have hp := processNextItem_key p c w key e1 hget
        constructor
        · intro h
          simp only [runWorker, hp] at h
          obtain ⟨n, wn, key2, e, hn, hat, hg, hw⟩ := (ih _ w2).1 h
          refine ⟨n + 1, wn, key2, e, Nat.succ_lt_succ hn, ?_, hg, hw⟩
          rw [attempts_succ_of_key p c w _ n hp]
          exact hat
        · rintro ⟨n, wn, key2, e, hn, hat, hg, hw⟩
          cases n with
          | zero =>
            simp only [attempts, Option.some.injEq] at hat
            subst hat
            rw [hget] at hg
            simp at hg
          | succ n =>
            rw [attempts_succ_of_key p c w _ n hp] at hat
            simp only [runWorker, hp]
            exact (ih _ w2).2 ⟨n, wn, key2, e, Nat.lt_of_succ_lt_succ hn, hat, hg, hw⟩

/-! ## Controller lifecycle -/

theorem startWorkers_eq {σ : Type} (threadiness : Int) (n : Nat) :
    ∀ (i : Int) (w : World σ), (threadiness - i).toNat = n →
      startWorkers threadiness i w =
        { ext := w.ext
          trace := w.trace ++ List.replicate n Call.goWaitUntilRunWorker } := by
  induction n with
  | zero =>
    intro i w h
    have hi : ¬ i < threadiness := by omega
    rw [startWorkers]
    simp [hi]
  | succ n ih =>
    intro i w h
    have hi : i < threadiness := by omega
    have hn : (threadiness - (i + 1)).toNat = n := by omega
    rw [startWorkers]
    simp only [hi, if_true]
    rw [ih (i + 1) _ hn]
    simp [World.record, List.replicate_succ]

theorem Run_sync_failed {σ : Type} (p : Packages σ) (c : Controller σ) (threadiness : Int)
    (w : World σ) (e1 : σ)
    (h : p.WaitForCacheSync c.informer.HasSynced w.ext = some (false, e1)) :
    Run p c threadiness w =
      .returned ()
        { ext := c.queue.ShutDown e1
          trace := w.trace ++
            [.logPrintln (.starting c.state.eventTypes c.state.involvedObjects c.state.reasons),
             .goInformerRun, .waitForCacheSync,
             .runtimeHandleError "Timed out waiting for caches to sync",
             .queueShutDown, .runtimeHandleCrash] } := by
  simp [Run, World.record, World.act, runDeferred, h]

theorem Run_sync_blocked {σ : Type} (p : Packages σ) (c : Controller σ) (threadiness : Int)
    (w : World σ) (h : p.WaitForCacheSync c.informer.HasSynced w.ext = none) :
    Run p c threadiness w =
      .blocked
        { ext := w.ext
          trace := w.trace ++
            [.logPrintln (.starting c.state.eventTypes c.state.involvedObjects c.state.reasons),
             .goInformerRun, .waitForCacheSync] } := by
  simp [Run, World.record, h]

theorem Run_synced_stop {σ : Type} (p : Packages σ) (c : Controller σ) (threadiness : Int)
    (w : World σ) (e1 e2 : σ)
    (h : p.WaitForCacheSync c.informer.HasSynced w.ext = some (true, e1))
    (hstop : p.recvStopCh e1 = some e2) :
    Run p c threadiness w =
      .returned ()
        { ext := c.queue.ShutDown e2
          trace := w.trace ++
            ([.logPrintln (.starting c.state.eventTypes c.state.involvedObjects c.state.reasons),
              .goInformerRun, .waitForCacheSync] ++
             List.replicate threadiness.toNat .goWaitUntilRunWorker ++
             [.recvStopCh, .logPrintln .stopping, .queueShutDown, .runtimeHandleCrash]) } := by
  have hw := fun (w0 : World σ) =>
    startWorkers_eq threadiness threadiness.toNat 0 w0 (by omega)
  simp [Run, World.record, World.act, runDeferred, h, hw, hstop]

theorem Run_synced_waiting {σ : Type} (p : Packages σ) (c : Controller σ) (threadiness : Int)
    (w : World σ) (e1 : σ)
    (h : p.WaitForCacheSync c.informer.HasSynced w.ext = some (true, e1))
    (hstop : p.recvStopCh e1 = none) :
    Run p c threadiness w =
      .blocked
        { ext := e1
          trace := w.trace ++
            ([.logPrintln (.starting c.state.eventTypes c.state.involvedObjects c.state.reasons),
              .goInformerRun, .waitForCacheSync] ++
             List.replicate threadiness.toNat .goWaitUntilRunWorker ++
             [.recvStopCh]) } := by
  have hw := fun (w0 : World σ) =>
    startWorkers_eq threadiness threadiness.toNat 0 w0 (by omega)
  simp [Run, World.record, h, hw, hstop]

/-- C9. For every `threadiness >= 0`, `Run` starts exactly `threadiness` worker
loops when the cache reports its initial synchronization complete, and no worker
loop, reporting an error, when the synchronization fails; on every return path
the queue's `ShutDown` is called; no worker is started before the
synchronization-complete signal. -/
theorem Run_workers_after_sync {σ : Type} (p : Packages σ) (c : Controller σ)
    (threadiness : Int) (w : World σ) (h : 0 ≤ threadiness) :
    (∀ e1, p.WaitForCacheSync c.informer.HasSynced w.ext = some (true, e1) →
      (((newCalls w.trace (Run p c threadiness w).world.trace).count
          .goWaitUntilRunWorker : Nat) : Int) = threadiness ∧
      ∃ tail, newCalls w.trace (Run p c threadiness w).world.trace =
          [.logPrintln (.starting c.state.eventTypes c.state.involvedObjects c.state.reasons),
            .goInformerRun, .waitForCacheSync] ++
          List.replicate threadiness.toNat .goWaitUntilRunWorker ++ tail ∧
        ((p.recvStopCh e1 = none ∧ tail = [.recvStopCh] ∧
            ∃ w2, Run p c threadiness w = .blocked w2) ∨
         (∃ e2, p.recvStopCh e1 = some e2 ∧
            tail = [.recvStopCh, .logPrintln .stopping, .queueShutDown,
              .runtimeHandleCrash] ∧
            ∃ w2, Run p c threadiness w = .returned () w2 ∧
              w2.ext = c.queue.ShutDown e2))) ∧
    (∀ e1, p.WaitForCacheSync c.informer.HasSynced w.ext = some (false, e1) →
      Run p c threadiness w =
        .returned ()
          { ext := c.queue.ShutDown e1
            trace := w.trace ++
              [.logPrintln
                 (.starting c.state.eventTypes c.state.involvedObjects c.state.reasons),
               .goInformerRun, .waitForCacheSync,
               .runtimeHandleError "Timed out waiting for caches to sync",
               .queueShutDown, .runtimeHandleCrash] } ∧
      (newCalls w.trace (Run p c threadiness w).world.trace).count
        .goWaitUntilRunWorker = 0) ∧
    (∀ w2, Run p c threadiness w = .returned () w2 →
      (newCalls w.trace w2.trace).count .queueShutDown = 1) ∧
    (Call.goWaitUntilRunWorker ∈ newCalls w.trace (Run p c threadiness w).world.trace →
      ∃ e1, p.WaitForCacheSync c.informer.HasSynced w.ext = some (true, e1)) ∧
    Call.goWaitUntilRunWorker ∉
      (newCalls w.trace (Run p c threadiness w).world.trace).takeWhile
        (fun x => x != .waitForCacheSync) := by
  have hcount : ∀ (n : Nat) (pre tail : List Call),
      Call.goWaitUntilRunWorker ∉ pre → Call.goWaitUntilRunWorker ∉ tail →
      (pre ++ List.replicate n Call.goWaitUntilRunWorker ++ tail).count
        .goWaitUntilRunWorker = n := by
    intro n pre tail h1 h2
    rw [List.count_append, List.count_append, List.count_eq_zero_of_not_mem h1,
      List.count_eq_zero_of_not_mem h2, List.count_replicate_self]
    omega
  have hshut : ∀ (n : Nat) (pre tail : List Call), Call.queueShutDown ∉ pre →
      tail.count .queueShutDown = 1 →
      (pre ++ List.replicate n Call.goWaitUntilRunWorker ++ tail).count .queueShutDown = 1 := by
    intro n pre tail h1 h2
    rw [List.count_append, List.count_append, List.count_eq_zero_of_not_mem h1, h2,
      List.count_eq_zero_of_not_mem]
    intro hm
    exact absurd (List.eq_of_mem_replicate hm) (by decide)
  have hne : (Call.goInformerRun != Call.waitForCacheSync) = true := by decide
  cases hsync : p.WaitForCacheSync c.informer.HasSynced w.ext with
  | none =>
    have hr := Run_sync_blocked p c threadiness w hsync
    refine ⟨(by intro e1 he; cases he), (by intro e1 he; cases he), ?_, ?_, ?_⟩
    · intro w2 hw2
      rw [hr] at hw2
      cases hw2
    · intro hm
      rw [hr] at hm
      simp [Result.world, newCalls] at hm
    · rw [hr]
      simp [Result.world, newCalls, List.takeWhile, hne]
  | some r =>
    obtain ⟨synced, e1⟩ := r
    cases synced with
    | false =>
      have hr := Run_sync_failed p c threadiness w e1 hsync
      refine ⟨(by intro e he; cases he), ?_, ?_, ?_, ?_⟩
      · intro e he
        cases he
        refine ⟨hr, ?_⟩
        rw [hr]
        simp [Result.world, newCalls, List.count_cons]
      · intro w2 hw2
        rw [hr] at hw2
        cases hw2
        simp [newCalls, List.count_cons]
      · intro hm
        rw [hr] at hm
        simp [Result.world, newCalls] at hm
      · rw [hr]
        simp [Result.world, newCalls, List.takeWhile, hne]
    | true =>
      cases hstop : p.recvStopCh e1 with
      | none =>
        have hr := Run_synced_waiting p c threadiness w e1 hsync hstop
        refine ⟨?_, (by intro e he; cases he), ?_, fun _ => ⟨e1, rfl⟩, ?_⟩
        · intro e he
          cases he
          rw [hr]
          simp only [Result.world, newCalls_append]
          refine ⟨?_, [.recvStopCh], rfl, Or.inl ⟨hstop, rfl, _, rfl⟩⟩
          rw [hcount _ _ _ (by simp) (by simp)]
          omega
        · intro w2 hw2
          rw [hr] at hw2
          cases hw2
        · rw [hr]
          simp [Result.world, newCalls, List.takeWhile, hne]
      | some e2 =>
        have hr := Run_synced_stop p c threadiness w e1 e2 hsync hstop
        refine ⟨?_, (by intro e he; cases he), ?_, fun _ => ⟨e1, rfl⟩, ?_⟩
        · intro e he
          cases he
          rw [hr]
          simp only [Result.world, newCalls_append]
          refine ⟨?_, _, rfl, Or.inr ⟨e2, hstop, rfl, _, rfl, rfl⟩⟩
          rw [hcount _ _ _ (by simp) (by simp)]
          omega
        · intro w2 hw2
          rw [hr] at hw2
          cases hw2
          rw [newCalls_append]
          exact hshut _ _ _ (by simp) (by simp [List.count_cons])
        · rw [hr]
          simp [Result.world, newCalls, List.takeWhile, hne]

/-! ## The retry scenario -/

theorem retry_get (st : State) (key : String) (e : GoError) (n : Nat) (s : Sim)
    (hr : RetryReady key e n s) :
    ∃ s1, (simController st).queue.Get s = some ((key, false), s1) ∧
      s1.queue = [] ∧ s1.dirty = [] ∧ s1.processing = [key] ∧ s1.shuttingDown = false ∧
      s1.failures key = n ∧ (s1.store key).2.2 = some e ∧
      ((simController st).indexer.GetByKey key s1).2 = s1 ∧
      ((simController st).indexer.GetByKey key s1).1.2.2 = some e ∧
      ((simController st).queue.NumRequeues key s1).1 = (n : Int) ∧
      ((simController st).queue.NumRequeues key s1).2 = s1 := by
  obtain ⟨hq, hd, hp, hs, hf, hst⟩ := hr
  refine ⟨{ queue := []
            dirty := List.filter (fun k => k != key) s.dirty
            processing := s.processing ++ [key]
            shuttingDown := s.shuttingDown
            failures := s.failures
            store := s.store
            synced := s.synced
            stopped := s.stopped },
    by simp only [simController, simQueue, Sim.get, hq], ?_⟩
  simp [simController, simQueue, simIndexer, hd, hp, hs, hf, hst]

theorem retry_step (p : Packages Sim) (st : State) (key : String) (e : GoError) (n : Nat)
    (w : World Sim) (hr : RetryReady key e n w.ext) (hn : n < 5) :
    ∃ w2, processNextItem p (simController st) w = .returned true w2 ∧
      RetryReady key e (n + 1) w2.ext ∧ w2.trace = w.trace ++ retryCalls key e := by
  obtain ⟨s1, hget, h1q, h1d, h1p, h1s, h1f, h1st, hix, herr, hnum, hnum2⟩ :=
    retry_get st key e n w.ext hr
  refine ⟨_, processNextItem_key p _ w key _ hget, ?_⟩
  rw [syncToStdout_fetch_error p _ key _ e herr]
  have hlt : ((simController st).queue.NumRequeues key
      ((simController st).indexer.GetByKey key s1).2).1 < 5 := by
    rw [hix, hnum]; omega
  rw [handleErr_retry _ e key _ hlt]
  refine ⟨?_, ?_⟩
  · simp only [World.act, hix, hnum2]
    simp [RetryReady, simController, simQueue, Sim.done, Sim.addRateLimited, Sim.add,
      h1q, h1d, h1p, h1s, h1f, h1st]
  · simp [World.act, retryCalls]

theorem drop_step (p : Packages Sim) (st : State) (key : String) (e : GoError) (n : Nat)
    (w : World Sim) (hr : RetryReady key e n w.ext) (hn : 5 ≤ n) :
    ∃ w2, processNextItem p (simController st) w = .returned true w2 ∧
      w2.ext.queue = [] ∧ w2.ext.dirty = [] ∧ w2.ext.processing = [] ∧
      w2.ext.failures key = 0 ∧ (simController st).queue.Get w2.ext = none ∧
      w2.trace = w.trace ++ dropCalls key e := by
  obtain ⟨s1, hget, h1q, h1d, h1p, h1s, h1f, h1st, hix, herr, hnum, hnum2⟩ :=
    retry_get st key e n w.ext hr
  refine ⟨_, processNextItem_key p _ w key _ hget, ?_⟩
  rw [syncToStdout_fetch_error p _ key _ e herr]
  have hge : 5 ≤ ((simController st).queue.NumRequeues key
      ((simController st).indexer.GetByKey key s1).2).1 := by
    rw [hix, hnum]; omega
  rw [handleErr_drop _ e key _ hge]
  simp only [World.act, hix, hnum2]
  simp [simController, simQueue, Sim.done, Sim.forget, Sim.get, dropCalls,
    h1q, h1d, h1p, h1s]

theorem retry_rounds (p : Packages Sim) (st : State) (key : String) (e : GoError) (i : Nat) :
    ∀ (n : Nat) (w : World Sim), RetryReady key e n w.ext → n + i ≤ 5 →
      ∃ wi, attempts p (simController st) i w = some wi ∧
        RetryReady key e (n + i) wi.ext ∧ wi.trace = w.trace ++ retryRounds key e i := by
  induction i with
  | zero =>
    intro n w hr _
    exact ⟨w, rfl, hr, by simp [retryRounds]⟩
  | succ i ih =>
    intro n w hr hle
    obtain ⟨w1, hstep, hr1, ht1⟩ := retry_step p st key e n w hr (by omega)
    obtain ⟨wi, hat, hri, hti⟩ := ih (n + 1) w1 hr1 (by omega)
    refine ⟨wi, ?_, ?_, ?_⟩
    · rw [attempts_succ_of_key p _ w w1 i hstep]; exact hat
    · have : n + (i + 1) = n + 1 + i := by omega
      rw [this]; exact hri
    · rw [hti, ht1]; simp [retryRounds]

theorem attempts_snoc {σ : Type} (p : Packages σ) (c : Controller σ) (n : Nat) :
    ∀ (w wn w2 : World σ), attempts p c n w = some wn →
      processNextItem p c wn = .returned true w2 → attempts p c (n + 1) w = some w2 := by
  induction n with
  | zero =>
    intro w wn w2 h hstep
    simp only [attempts, Option.some.injEq] at h
    subst h
    simp [attempts, hstep]
  | succ n ih =>
    intro w wn w2 h hstep
    cases hp : processNextItem p c w with
    | blocked wb => simp [attempts, hp] at h
    | returned b w1 =>
      cases b with
      | false => simp [attempts, hp] at h
      | true =>
        rw [attempts_succ_of_key p c w w1 n hp] at h
        rw [attempts_succ_of_key p c w w1 (n + 1) hp]
        exact ih w1 wn w2 h hstep

theorem simWorld_ready (key : String) (e : GoError)
    (store : String → Option Event × Bool × Option GoError) (h : (store key).2.2 = some e) :
    RetryReady key e 0 (simWorld [key] store).ext := by
  simp [RetryReady, simWorld, h]

/-- C5. Under the queue model in which `NumRequeues(key)` counts the
`AddRateLimited(key)` calls since the last `Forget(key)` and every
`AddRateLimited` re-delivers the key: when the lookup of `key` fails on six
attempts in a row, each of the first five attempts reads `NumRequeues = 0,1,2,3,4`
and calls `AddRateLimited(key)`; the sixth reads `NumRequeues = 5`, calls
`Forget(key)`, surfaces the error and does not re-add the key; in total five
re-adds and no record emitted. -/
theorem six_failed_lookups (p : Packages Sim) (st : State) (key : String) (e : GoError)
    (store : String → Option Event × Bool × Option GoError)
    (h : (store key).2.2 = some e) :
    (∀ i, i < 5 → ∃ wi w2,
      attempts p (simController st) i (simWorld [key] store) = some wi ∧
      (simQueue.NumRequeues key wi.ext).1 = (i : Int) ∧
      processNextItem p (simController st) wi = .returned true w2 ∧
      newCalls wi.trace w2.trace =
        [.queueGet, .indexerGetByKey key, .logPrintln (.fetchFailed key e),
          .queueNumRequeues key, .logPrintln (.cantSync key e), .queueAddRateLimited key,
          .queueDone key] ∧
      w2.ext.queue = [key]) ∧
    ∃ w5 w6,
      attempts p (simController st) 5 (simWorld [key] store) = some w5 ∧
      (simQueue.NumRequeues key w5.ext).1 = 5 ∧
      processNextItem p (simController st) w5 = .returned true w6 ∧
      newCalls w5.trace w6.trace =
        [.queueGet, .indexerGetByKey key, .logPrintln (.fetchFailed key e),
          .queueNumRequeues key, .queueForget key, .runtimeHandleError e,
          .logPrintln (.dropping key e), .queueDone key] ∧
      w6.ext.queue = [] ∧ w6.ext.dirty = [] ∧ simQueue.Get w6.ext = none ∧
      attempts p (simController st) 6 (simWorld [key] store) = some w6 ∧
      w6.trace.count (.queueAddRateLimited key) = 5 ∧
      emitted w6.trace = [] ∧ surfaced w6.trace = [e] := by
  have h0 := simWorld_ready key e store h
  constructor
  · intro i hi
    obtain ⟨wi, hat, hri, -⟩ := retry_rounds p st key e i 0 _ h0 (by omega)
    obtain ⟨w2, hstep, hr2, ht2⟩ := retry_step p st key e (0 + i) wi hri (by omega)
    refine ⟨wi, w2, hat, ?_, hstep, ?_, hr2.1⟩
    · simp [simQueue, hri.2.2.2.2.1]
    · rw [ht2, newCalls_append]; rfl
  · obtain ⟨w5, hat, hr5, ht5⟩ := retry_rounds p st key e 5 0 _ h0 (by omega)
    obtain ⟨w6, hstep, hq, hd, -, -, hg, ht6⟩ := drop_step p st key e (0 + 5) w5 hr5 (by omega)
    refine ⟨w5, w6, hat, ?_, hstep, ?_, hq, hd, hg,
      attempts_snoc p _ 5 _ w5 w6 hat hstep, ?_, ?_, ?_⟩
    · simp [simQueue, hr5.2.2.2.2.1]
    · rw [ht6, newCalls_append]; rfl
    · rw [ht6, ht5]
      simp [simWorld, retryRounds, retryCalls, dropCalls, List.count_cons]
    · rw [ht6, ht5]
      simp [simWorld, retryRounds, retryCalls, dropCalls, emitted]
    · rw [ht6, ht5]
      simp [simWorld, retryRounds, retryCalls, dropCalls, surfaced]

/-- Witness for C5: the key `ns/pod-1` and a cache whose every lookup fails
with `connection refused`. -/
theorem six_failed_lookups_witness :
    ∃ w6, attempts simPackages (simController (getState "Warning" "" "")) 6
        (simWorld ["ns/pod-1"] (failingStore "connection refused")) = some w6 ∧
      w6.trace.count (.queueAddRateLimited "ns/pod-1") = 5 ∧
      emitted w6.trace = [] ∧ surfaced w6.trace = ["connection refused"] :=
  match (six_failed_lookups simPackages (getState "Warning" "" "") "ns/pod-1"
      "connection refused" (failingStore "connection refused") rfl).2 with
  | ⟨_, w6, _, _, _, _, _, _, _, h6, hc, he, hs⟩ => ⟨w6, h6, hc, he, hs⟩

/-- Witness for C4: an error on a key that was never re-added is answered with
one `AddRateLimited`. -/
theorem handleErr_one_queue_action_witness :
    handleErr (simController (getState "" "" "")) (some "connection refused") "ns/pod-1"
        (simWorld [] (failingStore "connection refused")) =
      { ext := simQueue.AddRateLimited "ns/pod-1"
          (simQueue.NumRequeues "ns/pod-1"
            (simWorld [] (failingStore "connection refused")).ext).2
        trace := (simWorld [] (failingStore "connection refused")).trace ++
          [.queueNumRequeues "ns/pod-1",
            .logPrintln (.cantSync "ns/pod-1" "connection refused"),
            .queueAddRateLimited "ns/pod-1"] } :=
  (handleErr_one_queue_action (simController (getState "" "" ""))
    (some "connection refused") "ns/pod-1"
    (simWorld [] (failingStore "connection refused"))).2.1 "connection refused" rfl
    (by decide)

/-- Witness for C8: on a queue that is shut down and still holds `ns/pod-1`,
`runWorker` delivers the key, ends that attempt with `Done`, and returns at the
next `Get`. -/
theorem processNextItem_done_once_witness :
    ∃ w2, runWorker simPackages (simController (getState "Warning" "" "")) 2
        (simWorldDraining ["ns/pod-1"] (podStore podEvent)) = some (.returned () w2) ∧
      w2.trace = [.queueGet, .indexerGetByKey "ns/pod-1",
        .fmtPrintf "[Warning Pod FailedMount ns/pod-1]\n", .queueLen,
        .queueForget "ns/pod-1", .queueDone "ns/pod-1", .queueGet] :=
  ⟨_, ((processNextItem_done_once simPackages (simController (getState "Warning" "" ""))
      (simWorldDraining ["ns/pod-1"] (podStore podEvent))).2.2.2 2 _).2
      ⟨1, _, "", _, by decide, rfl, rfl, rfl⟩, by decide⟩

/-- Witness for C9: `Run(1, stop)` as in `realMain`, with the cache synced. -/
theorem Run_workers_after_sync_witness :
    (0 : Int) ≤ 1 ∧
    (((newCalls (simWorld [] (podStore podEvent)).trace
        (Run simPackages (simController (getState "" "" "")) 1
          (simWorld [] (podStore podEvent))).world.trace).count
        .goWaitUntilRunWorker : Nat) : Int) = 1 :=
  ⟨by decide,
   ((Run_workers_after_sync simPackages (simController (getState "" "" "")) 1
      (simWorld [] (podStore podEvent)) (by decide)).1 _ rfl).1⟩

/-! ## Interleavings of queue operations: lemmas -/

theorem queueInv_add (key : String) (s : Sim) (h : QueueInv s) : QueueInv (Sim.add key s) := by
  obtain ⟨hs, hq, hp, h2, h6⟩ := h
  unfold Sim.add
  simp only [hs, Bool.false_eq_true, if_false]
  by_cases hd : key ∈ s.dirty
  · simp only [hd, if_true]; exact ⟨hs, hq, hp, h2, h6⟩
  · simp only [hd, if_false]
    by_cases hpr : key ∈ s.processing
    · simp only [hpr, if_true]
      refine ⟨rfl, hq, hp, ?_, ?_⟩
      · intro k hk
        exact ⟨List.mem_append_left _ (h2 k hk).1, (h2 k hk).2⟩
      · intro k hk
        rcases List.mem_append.1 hk with h1 | h1
        · exact h6 k h1
        · simp at h1; subst h1; exact Or.inr hpr
    · simp only [hpr, if_false]
      have hnq : key ∉ s.queue := fun hk => hd (h2 key hk).1
      refine ⟨rfl, ?_, hp, ?_, ?_⟩
      · exact List.Nodup.append hq (List.nodup_singleton key) (by simpa using hnq)
      · intro k hk
        rcases List.mem_append.1 hk with h1 | h1
        · exact ⟨List.mem_append_left _ (h2 k h1).1, (h2 k h1).2⟩
        · simp at h1; subst h1; exact ⟨by simp, hpr⟩
      · intro k hk
        rcases List.mem_append.1 hk with h1 | h1
        · rcases h6 k h1 with h | h
          · exact Or.inl (List.mem_append_left _ h)
          · exact Or.inr h
        · simp at h1; subst h1; exact Or.inl (by simp)

theorem queueInv_get (s s2 : Sim) (key : String) (b : Bool) (h : QueueInv s)
    (hg : Sim.get s = some ((key, b), s2)) :
    b = false ∧ key ∈ s.queue ∧ key ∉ s.processing ∧ QueueInv s2 ∧
      s2.processing = s.processing ++ [key] ∧ key ∉ s2.dirty ∧ key ∉ s2.queue ∧
      s.queue = key :: s2.queue ∧ (∀ k, k ≠ key → (k ∈ s2.dirty ↔ k ∈ s.dirty)) := by
  obtain ⟨hs, hq, hp, h2, h6⟩ := h
  unfold Sim.get at hg
  cases hqe : s.queue with
  | nil => simp [hqe, hs] at hg
  | cons x rest =>
    simp only [hqe, Option.some.injEq, Prod.mk.injEq] at hg
    obtain ⟨⟨hx, hb⟩, hs2⟩ := hg
    subst hx
    subst hs2
    rw [hqe] at hq h2
    have hxn : x ∉ rest := (List.nodup_cons.1 hq).1
    have hrn : rest.Nodup := (List.nodup_cons.1 hq).2
    have hxp : x ∉ s.processing := (h2 x (List.mem_cons_self _ _)).2
    refine ⟨hb.symm, List.mem_cons_self _ _, hxp, ⟨hs, hrn, ?_, ?_, ?_⟩, rfl, ?_, hxn, rfl, ?_⟩
    · exact List.Nodup.append hp (List.nodup_singleton x) (by simpa using hxp)
    · intro k hk
      have hkx : k ≠ x := fun e => hxn (e ▸ hk)
      have := h2 k (List.mem_cons_of_mem _ hk)
      refine ⟨?_, ?_⟩
      · simp [List.mem_filter, this.1, hkx]
      · simp [this.2, hkx]
    · intro k hk
      simp only [List.mem_filter, bne_iff_ne, ne_eq] at hk
      rcases h6 k hk.1 with h | h
      · rw [hqe] at h
        rcases List.mem_cons.1 h with h1 | h1
        · exact absurd h1 hk.2
        · exact Or.inl h1
      · exact Or.inr (List.mem_append_left _ h)
    · simp [List.mem_filter]
    · intro k hk
      simp [List.mem_filter, hk]

theorem queueInv_done (key : String) (s : Sim) (h : QueueInv s) (hin : key ∈ s.processing) :
    QueueInv (Sim.done key s) ∧ key ∉ (Sim.done key s).processing ∧
      (Sim.done key s).dirty = s.dirty ∧
      (Sim.done key s).queue = (if key ∈ s.dirty then s.queue ++ [key] else s.queue) := by
  obtain ⟨hs, hq, hp, h2, h6⟩ := h
  have hnq : key ∉ s.queue := fun hk => (h2 key hk).2 hin
  unfold Sim.done
  by_cases hd : key ∈ s.dirty
  · simp only [hd, if_true]
    refine ⟨⟨hs, ?_, ?_, ?_, ?_⟩, ?_, trivial, trivial⟩
    · exact List.Nodup.append hq (List.nodup_singleton key) (by simpa using hnq)
    · exact hp.filter _
    · intro k hk
      rcases List.mem_append.1 hk with h1 | h1
      · refine ⟨(h2 k h1).1, ?_⟩
        simp [List.mem_filter, (h2 k h1).2]
      · simp at h1; subst h1
        exact ⟨hd, by simp [List.mem_filter]⟩
    · intro k hk
      by_cases hkk : k = key
      · subst hkk; exact Or.inl (by simp)
      · rcases h6 k hk with h | h
        · exact Or.inl (List.mem_append_left _ h)
        · exact Or.inr (by simp [List.mem_filter, h, hkk])
    · simp [List.mem_filter]
  · simp only [hd, if_false]
    refine ⟨⟨hs, hq, hp.filter _, ?_, ?_⟩, ?_, trivial, trivial⟩
    · intro k hk
      refine ⟨(h2 k hk).1, ?_⟩
      simp [List.mem_filter, (h2 k hk).2]
    · intro k hk
      have hkk : k ≠ key := fun e => hd (e ▸ hk)
      rcases h6 k hk with h | h
      · exact Or.inl h
      · exact Or.inr (by simp [List.mem_filter, h, hkk])
    · simp [List.mem_filter]

theorem queueInv_failures (s : Sim) (f : String → Nat) (h : QueueInv s) :
    QueueInv { s with failures := f } := h

theorem add_processing (key : String) (s : Sim) :
    (Sim.add key s).processing = s.processing := by
  unfold Sim.add
  split
  · rfl
  · split
    · rfl
    · simp only
      split <;> rfl

theorem add_dirty (key k : String) (s : Sim) (hs : s.shuttingDown = false) :
    k ∈ (Sim.add key s).dirty ↔ (k ∈ s.dirty ∨ k = key) := by
  unfold Sim.add
  simp only [hs, Bool.false_eq_true, if_false]
  by_cases hd : key ∈ s.dirty
  · simp only [hd, if_true]
    constructor
    · exact Or.inl
    · rintro (h | h)
      · exact h
      · exact h ▸ hd
  · simp only [hd, if_false]
    split <;> simp

theorem add_queue (key : String) (s : Sim) :
    ∃ tail, (Sim.add key s).queue = s.queue ++ tail := by
  unfold Sim.add
  split
  · exact ⟨[], by simp⟩
  · split
    · exact ⟨[], by simp⟩
    · simp only
      split
      · exact ⟨[], by simp⟩
      · exact ⟨[key], rfl⟩

theorem queueInv_step (op : QueueOp) (s : Sim) (h : QueueInv s) : QueueInv (op.step s).1 := by
  cases op with
  | add key => exact queueInv_add key s h
  | get =>
    unfold QueueOp.step
    cases hg : Sim.get s with
    | none => exact h
    | some r =>
      obtain ⟨⟨key, b⟩, s2⟩ := r
      have hb := (queueInv_get s s2 key b h hg)
      obtain ⟨hbf, -, -, hinv, -⟩ := hb
      subst hbf
      exact hinv
  | forget key => exact h
  | addRateLimited key => exact queueInv_add key _ (queueInv_failures s _ h)
  | backoff key => exact h
  | done key =>
    unfold QueueOp.step
    by_cases hin : key ∈ s.processing
    · simp only [hin, if_true]
      exact (queueInv_done key s h hin).1
    · simp only [hin, if_false]
      exact h

theorem queueInv_afterOps (ops : List QueueOp) :
    ∀ s : Sim, QueueInv s → QueueInv (afterOps ops s) := by
  induction ops with
  | nil => intro s h; exact h
  | cons op ops ih => intro s h; exact ih _ (queueInv_step op s h)

/-- One operation other than `Done(key)` while `key` is in flight. -/
theorem step_in_flight (key : String) (op : QueueOp) (s : Sim) (h : QueueInv s)
    (hin : key ∈ s.processing) (hop : op ≠ .done key) :
    key ∈ (op.step s).1.processing ∧ (op.step s).2 ≠ some key ∧
      (key ∈ s.dirty → key ∈ (op.step s).1.dirty) ∧
      (op = .add key ∨ op = .addRateLimited key → key ∈ (op.step s).1.dirty) ∧
      (op ≠ .add key → op ≠ .addRateLimited key → key ∉ s.dirty →
        key ∉ (op.step s).1.dirty) := by
  have hs := h.1
  have hnq : key ∉ s.queue := fun hk => (h.2.2.2.1 key hk).2 hin
  cases op with
  | add k =>
    refine ⟨by simpa [QueueOp.step, add_processing] using hin, by simp [QueueOp.step], ?_, ?_, ?_⟩
    · intro hd; exact (add_dirty k key s hs).2 (Or.inl hd)
    · intro hk
      rcases hk with hk | hk
      · cases hk; exact (add_dirty key key s hs).2 (Or.inr rfl)
      · cases hk
    · intro h1 _ hd hmem
      rcases (add_dirty k key s hs).1 hmem with h2 | h2
      · exact hd h2
      · exact h1 (by rw [h2])
  | get =>
    unfold QueueOp.step
    cases hg : Sim.get s with
    | none => exact ⟨hin, by simp, id, by simp, fun _ _ hd => hd⟩
    | some r =>
      obtain ⟨⟨x, b⟩, s2⟩ := r
      obtain ⟨hbf, hxq, -, -, hp2, -, -, -, hdirty⟩ := queueInv_get s s2 x b h hg
      subst hbf
      have hne : key ≠ x := fun e => hnq (e ▸ hxq)
      refine ⟨by simp [hp2, hin], ?_, ?_, by simp, ?_⟩
      · simp only [ne_eq, Option.some.injEq]
        exact fun e => hne e.symm
      · intro hd; exact (hdirty key hne).2 hd
      · intro _ _ hd hmem; exact hd ((hdirty key hne).1 hmem)
  | forget k => exact ⟨hin, by simp [QueueOp.step], id, by simp, fun _ _ hd => hd⟩
  | addRateLimited k =>
    have hs2 : ({ s with failures := fun x => if x = k then s.failures x + 1 else s.failures x } :
        Sim).shuttingDown = false := hs
    refine ⟨by simpa [QueueOp.step, Sim.addRateLimited, add_processing] using hin,
      by simp [QueueOp.step], ?_, ?_, ?_⟩
    · intro hd; exact (add_dirty k key _ hs2).2 (Or.inl hd)
    · intro hk
      rcases hk with hk | hk
      · cases hk
      · cases hk; exact (add_dirty key key _ hs2).2 (Or.inr rfl)
    · intro _ h1 hd hmem
      rcases (add_dirty k key _ hs2).1 hmem with h2 | h2
      · exact hd h2
      · exact h1 (by rw [h2])
  | backoff k => exact ⟨hin, by simp [QueueOp.step], id, by simp, fun _ _ hd => hd⟩
  | done k =>
    have hk : k ≠ key := fun e => hop (by rw [e])
    unfold QueueOp.step
    by_cases hkin : k ∈ s.processing
    · simp only [hkin, if_true]
      obtain ⟨-, -, hd2, -⟩ := queueInv_done k s h hkin
      refine ⟨?_, by simp, ?_, by simp, ?_⟩
      · simp [Sim.done, List.mem_filter, hin, Ne.symm hk]
        split <;> simp [List.mem_filter, hin, Ne.symm hk]
      · intro hd; rw [hd2]; exact hd
      · intro _ _ hd; rw [hd2]; exact hd
    · simp only [hkin, if_false]
      exact ⟨hin, by simp, id, by simp, fun _ _ hd => hd⟩

/-- A run without `Done(key)` while `key` is in flight. -/
theorem run_in_flight (key : String) (ops : List QueueOp) :
    ∀ s : Sim, QueueInv s → key ∈ s.processing → QueueOp.done key ∉ ops →
      key ∈ (afterOps ops s).processing ∧ key ∉ deliveries ops s ∧
      (key ∈ s.dirty ∨ QueueOp.add key ∈ ops ∨ QueueOp.addRateLimited key ∈ ops →
        key ∈ (afterOps ops s).dirty) ∧
      (key ∉ s.dirty → QueueOp.add key ∉ ops → QueueOp.addRateLimited key ∉ ops →
        key ∉ (afterOps ops s).dirty) := by
  induction ops with
  | nil =>
    intro s _ hin _
    refine ⟨hin, by simp [deliveries], ?_, ?_⟩
    · intro h
      rcases h with h | h | h
      · exact h
      · simp at h
      · simp at h
    · intro hd _ _; exact hd
  | cons op ops ih =>
    intro s h hin hno
    have hop : op ≠ .done key := fun e => hno (by simp [e])
    have hno2 : QueueOp.done key ∉ ops := fun e => hno (List.mem_cons_of_mem _ e)
    obtain ⟨h1, h2, h3, h4, h5⟩ := step_in_flight key op s h hin hop
    obtain ⟨i1, i2, i3, i4⟩ := ih (op.step s).1 (queueInv_step op s h) h1 hno2
    refine ⟨i1, ?_, ?_, ?_⟩
    · simp only [deliveries]
      cases hd : (op.step s).2 with
      | none => exact i2
      | some x =>
        have hx : x ≠ key := fun e => h2 (by rw [hd, e])
        simp only [List.mem_cons, not_or]
        exact ⟨fun e => hx e.symm, i2⟩
    · intro hh
      apply i3
      rcases hh with hh | hh | hh
      · exact Or.inl (h3 hh)
      · rcases List.mem_cons.1 hh with e | e
        · exact Or.inl (h4 (Or.inl e.symm))
        · exact Or.inr (Or.inl e)
      · rcases List.mem_cons.1 hh with e | e
        · exact Or.inl (h4 (Or.inr e.symm))
        · exact Or.inr (Or.inr e)
    · intro hd ha hr
      have ha1 : op ≠ .add key := fun e => ha (by simp [e])
      have hr1 : op ≠ .addRateLimited key := fun e => hr (by simp [e])
      exact i4 (h5 ha1 hr1 hd) (fun e => ha (List.mem_cons_of_mem _ e))
        (fun e => hr (List.mem_cons_of_mem _ e))

/-- One operation other than a re-add of `key` keeps a clean `key` clean and does
not deliver it. -/
theorem step_clean (key : String) (op : QueueOp) (s : Sim) (h : QueueInv s)
    (hd : key ∉ s.dirty) (ha : op ≠ .add key) (hr : op ≠ .addRateLimited key) :
    key ∉ (op.step s).1.dirty ∧ (op.step s).2 ≠ some key := by
  have hs := h.1
  have hnq : key ∉ s.queue := fun hk => hd (h.2.2.2.1 key hk).1
  cases op with
  | add k =>
    refine ⟨?_, by simp [QueueOp.step]⟩
    intro hmem
    rcases (add_dirty k key s hs).1 hmem with h2 | h2
    · exact hd h2
    · exact ha (by rw [h2])
  | get =>
    unfold QueueOp.step
    cases hg : Sim.get s with
    | none => exact ⟨hd, by simp⟩
    | some r =>
      obtain ⟨⟨x, b⟩, s2⟩ := r
      obtain ⟨hbf, hxq, -, -, -, -, -, -, hdirty⟩ := queueInv_get s s2 x b h hg
      subst hbf
      have hne : key ≠ x := fun e => hnq (e ▸ hxq)
      refine ⟨fun hmem => hd ((hdirty key hne).1 hmem), ?_⟩
      simp only [ne_eq, Option.some.injEq]
      exact fun e => hne e.symm
  | forget k => exact ⟨hd, by simp [QueueOp.step]⟩
  | addRateLimited k =>
    have hs2 : ({ s with failures := fun x => if x = k then s.failures x + 1 else s.failures x } :
        Sim).shuttingDown = false := hs
    refine ⟨?_, by simp [QueueOp.step]⟩
    intro hmem
    rcases (add_dirty k key _ hs2).1 hmem with h2 | h2
    · exact hd h2
    · exact hr (by rw [h2])
  | backoff k => exact ⟨hd, by simp [QueueOp.step]⟩
  | done k =>
    unfold QueueOp.step
    by_cases hkin : k ∈ s.processing
    · simp only [hkin, if_true]
      obtain ⟨-, -, hd2, -⟩ := queueInv_done k s h hkin
      exact ⟨by rw [hd2]; exact hd, by simp⟩
    · simp only [hkin, if_false]
      exact ⟨hd, by simp⟩

/-- A key that is not marked dirty is not delivered before it is added again. -/
theorem run_clean (key : String) (ops : List QueueOp) :
    ∀ s : Sim, QueueInv s → key ∉ s.dirty → QueueOp.add key ∉ ops →
      QueueOp.addRateLimited key ∉ ops → key ∉ deliveries ops s := by
  induction ops with
  | nil => intro s _ _ _ _; simp [deliveries]
  | cons op ops ih =>
    intro s h hd ha hr
    have ha1 : op ≠ .add key := fun e => ha (by simp [e])
    have hr1 : op ≠ .addRateLimited key := fun e => hr (by simp [e])
    obtain ⟨h1, h2⟩ := step_clean key op s h hd ha1 hr1
    have i := ih (op.step s).1 (queueInv_step op s h) h1
      (fun e => ha (List.mem_cons_of_mem _ e)) (fun e => hr (List.mem_cons_of_mem _ e))
    simp only [deliveries]
    cases hdv : (op.step s).2 with
    | none => exact i
    | some x =>
      have hx : x ≠ key := fun e => h2 (by rw [hdv, e])
      simp only [List.mem_cons, not_or]
      exact ⟨fun e => hx e.symm, i⟩

/-- An operation other than `Get` delivers nothing and only appends to the
queue. -/
theorem step_appends (op : QueueOp) (s : Sim) (hop : op ≠ .get) :
    (op.step s).2 = none ∧ ∃ tail, (op.step s).1.queue = s.queue ++ tail := by
  cases op with
  | add k => exact ⟨rfl, add_queue k s⟩
  | get => exact absurd rfl hop
  | forget k => exact ⟨rfl, [], by simp [QueueOp.step, Sim.forget]⟩
  | addRateLimited k =>
    exact ⟨rfl, add_queue k _⟩
  | backoff k => exact ⟨rfl, [], by simp [QueueOp.step, Sim.backoff]⟩
  | done k =>
    unfold QueueOp.step
    by_cases hkin : k ∈ s.processing
    · simp only [hkin, if_true, true_and]
      unfold Sim.done
      simp only
      split
      · exact ⟨[k], rfl⟩
      · exact ⟨[], by simp⟩
    · simp only [hkin, if_false, true_and]
      exact ⟨[], by simp⟩

/-- A queued key is delivered at most once before it is added again, and
exactly once as soon as more keys were delivered than stood before it. -/
theorem run_queued (key : String) (ops : List QueueOp) :
    ∀ (s : Sim) (pre post : List String), QueueInv s → s.queue = pre ++ key :: post →
      QueueOp.add key ∉ ops → QueueOp.addRateLimited key ∉ ops →
      (deliveries ops s).count key ≤ 1 ∧
      (pre.length < (deliveries ops s).length → (deliveries ops s).count key = 1) := by
  induction ops with
  | nil => intro s pre post _ _ _ _; simp [deliveries]
  | cons op ops ih =>
    intro s pre post h hq ha hr
    have ha2 : QueueOp.add key ∉ ops := fun e => ha (List.mem_cons_of_mem _ e)
    have hr2 : QueueOp.addRateLimited key ∉ ops := fun e => hr (List.mem_cons_of_mem _ e)
    have hinv2 := queueInv_step op s h
    by_cases hop : op = .get
    · subst hop
      cases hg : Sim.get s with
      | none =>
        unfold Sim.get at hg
        rw [hq] at hg
        cases pre <;> simp at hg
      | some r =>
        obtain ⟨⟨x, b⟩, s2⟩ := r
        obtain ⟨hbf, -, -, hi2, -, hxd, -, hqx, -⟩ := queueInv_get s s2 x b h hg
        subst hbf
        have hstep : (QueueOp.get.step s) = (s2, some x) := by simp [QueueOp.step, hg]
        simp only [deliveries, hstep]
        cases pre with
        | nil =>
          rw [hq] at hqx
          simp only [List.nil_append, List.cons.injEq] at hqx
          obtain ⟨hkx, -⟩ := hqx
          subst hkx
          have hclean := run_clean key ops s2 hi2 hxd ha2 hr2
          have h0 : (deliveries ops s2).count key = 0 := List.count_eq_zero_of_not_mem hclean
          simp [h0]
        | cons p pre2 =>
          rw [hq] at hqx
          simp only [List.cons_append, List.cons.injEq] at hqx
          obtain ⟨hpx, hrest⟩ := hqx
          subst hpx
          have hnd : (p :: (pre2 ++ key :: post)).Nodup := by
            have := h.2.1; rw [hq] at this; simpa using this
          have hpk : p ≠ key := by
            intro e
            have := (List.nodup_cons.1 hnd).1
            exact this (by simp [e])
          obtain ⟨i1, i2⟩ := ih s2 pre2 post hi2 hrest.symm ha2 hr2
          have hc : (p :: deliveries ops s2).count key = (deliveries ops s2).count key := by
            simp [List.count_cons, hpk]
          rw [hc]
          refine ⟨i1, fun hl => i2 ?_⟩
          simp only [List.length_cons] at hl
          omega
    · obtain ⟨hnone, tail, htail⟩ := step_appends op s hop
      have hq2 : (op.step s).1.queue = pre ++ key :: (post ++ tail) := by
        rw [htail, hq]; simp
      simp only [deliveries, hnone]
      exact ih (op.step s).1 pre (post ++ tail) hinv2 hq2 ha2 hr2

theorem queueInv_init (store : String → Option Event × Bool × Option GoError) :
    QueueInv (simWorld [] store).ext := by
  simp [QueueInv, simWorld]

theorem syncToStdout_sim_ext (p : Packages Sim) (st : State) (key : String) (w : World Sim) :
    (syncToStdout p (simController st) key w).2.ext = w.ext := by
  obtain ⟨ext, tr⟩ := w
  cases herr : (ext.store key).2.2 with
  | some e =>
    rw [syncToStdout_fetch_error p _ key _ e (by simpa [simController, simIndexer] using herr)]
    rfl
  | none =>
    have herr2 : ((simController st).indexer.GetByKey key
        ({ ext := ext, trace := tr } : World Sim).ext).1.2.2 = none := by
      simpa [simController, simIndexer] using herr
    cases hobj : (ext.store key).1 with
    | none =>
      rw [syncToStdout_not_found p _ key _ herr2
        (by simpa [simController, simIndexer] using hobj)]
      rfl
    | some ev =>
      have hobj2 : ((simController st).indexer.GetByKey key
          ({ ext := ext, trace := tr } : World Sim).ext).1.1 = some ev := by
        simpa [simController, simIndexer] using hobj
      cases hsel : selectEvent (simController st).state ev.Type_ ev.InvolvedObject.Kind
          ev.Reason with
      | false =>
        rw [syncToStdout_rejected p _ key _ ev herr2 hobj2 hsel]
        rfl
      | true =>
        cases hm : p.jsonMarshal ev with
        | error e =>
          rw [syncToStdout_marshal_failed p _ key _ ev e herr2 hobj2 hsel hm]
          rfl
        | ok bytes =>
          rw [syncToStdout_emit p _ key _ ev bytes herr2 hobj2 hsel hm]
          rfl

theorem handleErr_sim_ext (st : State) (err : Option GoError) (key : String) (w : World Sim) :
    (handleErr (simController st) err key w).ext = Sim.forget key w.ext ∨
      (handleErr (simController st) err key w).ext = Sim.addRateLimited key w.ext := by
  cases err with
  | none => exact Or.inl rfl
  | some e =>
    by_cases hn : ((simController st).queue.NumRequeues key w.ext).1 < 5
    · rw [handleErr_retry _ e key w hn]; exact Or.inr rfl
    · have h5 : 5 ≤ ((simController st).queue.NumRequeues key w.ext).1 := by omega
      rw [handleErr_drop _ e key w h5]; exact Or.inl rfl

/-- On the modelled queue one `processNextItem` is a run of queue operations:
`Get` alone when it blocks or reports shutdown, otherwise `Get`, then `Forget`
or `AddRateLimited`, then `Done`, all for the delivered key. -/
theorem processNextItem_queue_ops (p : Packages Sim) (st : State) (w : World Sim) :
    ∃ wops, (processNextItem p (simController st) w).world.ext = afterOps wops w.ext ∧
      (wops = [.get] ∨ ∃ key, wops = [.get, .forget key, .done key] ∨
        wops = [.get, .addRateLimited key, .done key]) := by
  cases hg : Sim.get w.ext with
  | none =>
    refine ⟨[.get], ?_, Or.inl rfl⟩
    rw [processNextItem_blocked p _ w (by simpa [simController, simQueue] using hg)]
    simp [Result.world, World.record, afterOps, QueueOp.step, hg]
  | some r =>
    obtain ⟨⟨key, b⟩, s2⟩ := r
    cases b with
    | true =>
      refine ⟨[.get], ?_, Or.inl rfl⟩
      rw [processNextItem_shutdown p _ w key s2 (by simpa [simController, simQueue] using hg)]
      have hs2 : s2 = w.ext := by
        unfold Sim.get at hg
        split at hg
        · split at hg
          · simp only [Option.some.injEq, Prod.mk.injEq] at hg
            exact hg.2.symm
          · cases hg
        · simp at hg
      simp [Result.world, afterOps, QueueOp.step, hg, hs2]
    | false =>
      have hproc : key ∈ s2.processing := by
        unfold Sim.get at hg
        split at hg
        · split at hg <;> simp at hg
        · simp only [Option.some.injEq, Prod.mk.injEq] at hg
          obtain ⟨⟨hk, -⟩, hs⟩ := hg
          subst hs; subst hk
          simp
      rw [processNextItem_key p _ w key s2 (by simpa [simController, simQueue] using hg)]
      have hsync := syncToStdout_sim_ext p st key { ext := s2, trace := w.trace ++ [.queueGet] }
      rcases handleErr_sim_ext st
        (syncToStdout p (simController st) key
          { ext := s2, trace := w.trace ++ [.queueGet] }).1 key
        (syncToStdout p (simController st) key
          { ext := s2, trace := w.trace ++ [.queueGet] }).2 with h | h
      · refine ⟨[.get, .forget key, .done key], ?_, Or.inr ⟨key, Or.inl rfl⟩⟩
        have hin : key ∈ (Sim.forget key s2).processing := hproc
        simp only [Result.world, World.act, h, hsync, afterOps, QueueOp.step, hg, hin, if_true]
        rfl
      · refine ⟨[.get, .addRateLimited key, .done key], ?_, Or.inr ⟨key, Or.inr rfl⟩⟩
        have hin : key ∈ (Sim.addRateLimited key s2).processing := by
          unfold Sim.addRateLimited
          rw [add_processing]
          exact hproc
        simp only [Result.world, World.act, h, hsync, afterOps, QueueOp.step, hg, hin, if_true]
        rfl

/-- C10. Under every interleaving of the queue operations of worker loops and
notification callbacks, from the freshly made queue: there is at most one
attempt in flight per key at any time (`Get` never delivers a key that is in
flight); and when `Add(key)` is called while `key` is in flight, `key` is not
delivered before `Done(key)`, is queued exactly once by `Done(key)`, and from
then until it is added again it is delivered at most once, and exactly once as
soon as the workers have taken as many keys as were queued.  Without an `Add`
during the flight, `Done(key)` queues nothing and `key` is not delivered
again.  Every `processNextItem` on this queue is such a run of operations. -/
theorem one_in_flight_one_redelivery
    (store : String → Option Event × Bool × Option GoError) (ops : List QueueOp)
    (key : String) (s : Sim) (hreach : s = afterOps ops (simWorld [] store).ext) :
    s.processing.count key ≤ 1 ∧
    (∀ b s2, Sim.get s = some ((key, b), s2) →
      b = false ∧ key ∉ s.processing ∧ s2.processing.count key = 1) ∧
    (key ∈ s.processing → ∀ during : List QueueOp, QueueOp.done key ∉ during →
      key ∈ (afterOps during s).processing ∧
      key ∉ deliveries during s ∧
      (QueueOp.add key ∈ during ∨ QueueOp.addRateLimited key ∈ during →
        (Sim.done key (afterOps during s)).queue.count key = 1 ∧
        ∀ later : List QueueOp, QueueOp.add key ∉ later →
          QueueOp.addRateLimited key ∉ later →
          (deliveries later (Sim.done key (afterOps during s))).count key ≤ 1 ∧
          ((Sim.done key (afterOps during s)).queue.length ≤
              (deliveries later (Sim.done key (afterOps during s))).length →
            (deliveries later (Sim.done key (afterOps during s))).count key = 1)) ∧
      (key ∉ s.dirty → QueueOp.add key ∉ during → QueueOp.addRateLimited key ∉ during →
        (Sim.done key (afterOps during s)).queue.count key = 0 ∧
        ∀ later : List QueueOp, QueueOp.add key ∉ later →
          QueueOp.addRateLimited key ∉ later →
          (deliveries later (Sim.done key (afterOps during s))).count key = 0)) ∧
    (∀ (p : Packages Sim) (st : State) (t : List Call),
      ∃ wops, (processNextItem p (simController st) { ext := s, trace := t }).world.ext =
          afterOps wops s ∧
        (wops = [.get] ∨ ∃ k, wops = [.get, .forget k, .done k] ∨
          wops = [.get, .addRateLimited k, .done k])) := by
  have hinv : QueueInv s := by
    rw [hreach]; exact queueInv_afterOps ops _ (queueInv_init store)
  refine ⟨?_, ?_, ?_, fun p st t => processNextItem_queue_ops p st { ext := s, trace := t }⟩
  · exact List.nodup_iff_count_le_one.1 hinv.2.2.1 key
  · intro b s2 hg
    obtain ⟨hb, -, hnp, hinv2, hp2, -⟩ := queueInv_get s s2 key b hinv hg
    refine ⟨hb, hnp, ?_⟩
    exact List.count_eq_one_of_mem hinv2.2.2.1 (by simp [hp2])
  · intro hin during hno
    obtain ⟨h1, h2, h3, h4⟩ := run_in_flight key during s hinv hin hno
    have hinv1 : QueueInv (afterOps during s) := queueInv_afterOps during s hinv
    have hnq : key ∉ (afterOps during s).queue := fun hk => (hinv1.2.2.2.1 key hk).2 h1
    obtain ⟨hinvd, -, hdd, hdq⟩ := queueInv_done key (afterOps during s) hinv1 h1
    refine ⟨h1, h2, ?_, ?_⟩
    · intro hadd
      have hdirty : key ∈ (afterOps during s).dirty := h3 (Or.inr hadd)
      have hq : (Sim.done key (afterOps during s)).queue = (afterOps during s).queue ++ [key] := by
        rw [hdq]; simp [hdirty]
      refine ⟨?_, ?_⟩
      · rw [hq, List.count_append, List.count_eq_zero_of_not_mem hnq]
        simp
      · intro later ha hr
        obtain ⟨r1, r2⟩ := run_queued key later (Sim.done key (afterOps during s))
          (afterOps during s).queue [] hinvd hq ha hr
        refine ⟨r1, fun hl => r2 ?_⟩
        rw [hq] at hl
        simp only [List.length_append, List.length_singleton] at hl
        omega
    · intro hd ha hr
      have hclean : key ∉ (afterOps during s).dirty := h4 hd ha hr
      have hq : (Sim.done key (afterOps during s)).queue = (afterOps during s).queue := by
        rw [hdq]; simp [hclean]
      refine ⟨?_, ?_⟩
      · rw [hq]; exact List.count_eq_zero_of_not_mem hnq
      · intro later ha2 hr2
        have hclean2 : key ∉ (Sim.done key (afterOps during s)).dirty := by
          rw [hdd]; exact hclean
        exact List.count_eq_zero_of_not_mem
          (run_clean key later _ hinvd hclean2 ha2 hr2)

/-- Witness for C10: `ns/pod-1` is added and delivered, added twice more while
in flight, released by `Done`; the next `Get` delivers it, once. -/
theorem one_in_flight_one_redelivery_witness :
    (deliveries [QueueOp.get]
      (Sim.done "ns/pod-1"
        (afterOps [QueueOp.add "ns/pod-1", QueueOp.add "ns/pod-1"]
          (afterOps [QueueOp.add "ns/pod-1", QueueOp.get]
            (simWorld [] (podStore podEvent)).ext)))).count "ns/pod-1" = 1 :=
  ((((one_in_flight_one_redelivery (podStore podEvent)
      [QueueOp.add "ns/pod-1", QueueOp.get] "ns/pod-1" _ rfl).2.2.1 (by decide)
      [QueueOp.add "ns/pod-1", QueueOp.add "ns/pod-1"] (by decide)).2.2.1
      (Or.inl (by decide))).2 [QueueOp.get] (by decide) (by decide)).2 (by decide)

end EventExporter
